import Mathlib

/-!
Shallow embedding of the `streamlit_testing_framework` repository
(`data_processor.py`, `main.py`, `metadata_processor.py`, `reports.py`).

Modelling decisions:
* A pandas `DataFrame` is a list of `(name, dtype)` column headers together
  with a list of rows, each row a list of cells.  Cells are `Option Val`
  where `none` models a missing value (`NaN` / `None`); values are integers
  or strings (the claims under study never depend on non-integral floats).
* `duplicated()` / `drop_duplicates()` treat missing values as equal to each
  other, which coincides with ordinary `Option` equality, so plain
  `DecidableEq` on cells models pandas' duplicate detection.
* Machinery with real I/O (file reading, SQL, HTTP) is abstracted by passing
  the outcome of the underlying read as an `Except` parameter; the
  dispatch/fall-through and error-wrapping structure of the Python code is
  kept.
* Fallible Python code (`raise`) becomes `Except String`.
-/

/-- A scalar value stored in a cell: an integer or a string. -/
inductive Val where
  | int : Int → Val
  | str : String → Val
deriving DecidableEq, Repr

/-- A cell of a table; `none` models a missing value (`NaN`/`None`). -/
abbrev Cell := Option Val

/-- The pandas dtypes relevant to this program's checks. -/
inductive Dtype where
  | int64 : Dtype
  | float64 : Dtype
  | object : Dtype
deriving DecidableEq, Repr

/-- Name of a dtype, as pandas would render it. -/
def Dtype.name : Dtype → String
  | .int64 => "int64"
  | .float64 => "float64"
  | .object => "object"

/-- A pandas DataFrame: ordered column headers (name, dtype) and rows. -/
structure DataFrame where
  cols : List (String × Dtype)
  rows : List (List Cell)
deriving DecidableEq, Repr

/-- The ordered list of column names. -/
def DataFrame.names (df : DataFrame) : List String :=
  df.cols.map Prod.fst

/-- Well-formedness: distinct column names and rectangular rows. -/
def DataFrame.WF (df : DataFrame) : Prop :=
  df.names.Nodup ∧ ∀ r ∈ df.rows, r.length = df.cols.length

instance (df : DataFrame) : Decidable df.WF := by
  unfold DataFrame.WF; infer_instance

/-- `pd.DataFrame()`: the empty frame with no columns and no rows. -/
def emptyDF : DataFrame := ⟨[], []⟩

/-- `df.rename(columns=mapping)`: rename source columns (dict lookup,
keeping names that are not keys of the mapping). -/
def renameDF (df : DataFrame) (mapping : List (String × String)) : DataFrame :=
  ⟨df.cols.map (fun c => ((mapping.lookup c.1).getD c.1, c.2)), df.rows⟩

/-- Keep the entries of a row whose column is kept (parallel boolean mask). -/
def maskRow (keep : List Bool) (r : List Cell) : List Cell :=
  ((keep.zip r).filter (fun p => p.1)).map Prod.snd

/-- `df.drop(columns=[c for c in ignored if c in df.columns])`. -/
def dropColsDF (df : DataFrame) (ignored : List String) : DataFrame :=
  let keep : List Bool := df.cols.map (fun c => !(ignored.contains c.1))
  ⟨(df.cols.filter (fun c => !(ignored.contains c.1))), df.rows.map (maskRow keep)⟩

/-- `df[name]`: dtype and cells of the first column with that name. -/
def getColumn (df : DataFrame) (name : String) : Option (Dtype × List Cell) :=
  match df.cols.findIdx? (fun c => c.1 = name) with
  | none => none
  | some i => some ((df.cols.get? i).map Prod.snd |>.getD .object,
                    df.rows.map (fun r => r.getD i none))

/-- `df.isnull().sum().to_dict()`: per-column null counts, in column order. -/
def nullCounts (df : DataFrame) : List (String × Nat) :=
  df.cols.enum.map (fun p =>
    (p.2.1, (df.rows.filter (fun r => r.getD p.1 none = none)).length))

/-- Count of rows marked by `df.duplicated()` (equal to an earlier row);
missing values compare equal, as pandas does when detecting duplicates. -/
def dupCountAux (seen : List (List Cell)) : List (List Cell) → Nat
  | [] => 0
  | r :: rest => (if r ∈ seen then 1 else 0) + dupCountAux (r :: seen) rest

/-- `df.duplicated().sum()`. -/
def dupCount (rows : List (List Cell)) : Nat := dupCountAux [] rows

/-- `set(source.columns) & set(target.columns)`, listed in source order
(the program only uses membership in this set, so order is immaterial). -/
def commonNames (src tgt : DataFrame) : List String :=
  src.names.filter (fun n => tgt.names.contains n)

/-- Python dict equality for the null-count mappings
(`source_nulls == target_nulls`): same keys with the same values. -/
def dictEqB (a b : List (String × Nat)) : Bool :=
  a.all (fun p => b.lookup p.1 = some p.2) && b.all (fun p => a.lookup p.1 = some p.2)

/-- Elementwise addition `source_df["Column A"] + source_df["Column B"]`.
A missing value in a numeric column is `NaN` and propagates; a missing
value in an `object` column is `None` and addition raises; adding values
of distinct scalar kinds raises `TypeError`. -/
def cellAdd (da db : Dtype) : Cell → Cell → Except String Cell
  | none, none =>
      if da = .object ∨ db = .object then .error "unsupported operand type(s) for +"
      else .ok none
  | none, some (.int _) =>
      if da = .object then .error "unsupported operand type(s) for +" else .ok none
  | some (.int _), none =>
      if db = .object then .error "unsupported operand type(s) for +" else .ok none
  | none, some (.str _) => .error "unsupported operand type(s) for +"
  | some (.str _), none => .error "unsupported operand type(s) for +"
  | some (.int a), some (.int b) => .ok (some (.int (a + b)))
  | some (.str a), some (.str b) => .ok (some (.str (a ++ b)))
  | some (.int _), some (.str _) => .error "unsupported operand type(s) for +"
  | some (.str _), some (.int _) => .error "unsupported operand type(s) for +"

/-- Elementwise `==` between the computed sum and `target_df["Column C"]`.
A missing value on either side compares unequal (`NaN == x` is false; the
sum series can never hold an object-dtype `None` without having raised). -/
def eqCell : Cell → Cell → Bool
  | none, _ => false
  | some _, none => false
  | some a, some b => a = b

/-- Elementwise series addition; the two columns come from the same frame,
so pandas aligns them index by index. -/
def seriesAdd (da db : Dtype) : List Cell → List Cell → Except String (List Cell)
  | [], _ => .ok []
  | _ :: _, [] => .ok []
  | x :: xs, y :: ys =>
      match cellAdd da db x y with
      | .error e => .error e
      | .ok c =>
          match seriesAdd da db xs ys with
          | .error e => .error e
          | .ok cs => .ok (c :: cs)

/-- Result of the row-count check with its details payload. -/
structure CheckRC where
  passed : Bool
  source_count : Nat
  target_count : Nat
  difference : Nat
deriving DecidableEq, Repr

/-- Result of the duplicate check with its details payload. -/
structure CheckDup where
  passed : Bool
  source_duplicates : Nat
  target_duplicates : Nat
deriving DecidableEq, Repr

/-- Result of the null-value check with its details payload. -/
structure CheckNull where
  passed : Bool
  source_nulls : List (String × Nat)
  target_nulls : List (String × Nat)
deriving DecidableEq, Repr

/-- Result of the business-rule check; `details = none` is the initial
state `{"passed": False, "details": {}}`, `some (rule_satisfied, mismatches)`
the populated payload. -/
structure CheckBR where
  passed : Bool
  details : Option (Bool × Nat)
deriving DecidableEq, Repr

/-- Result of the column-mapping check; its details dictionary is kept to
show it is never populated. -/
structure CheckCM where
  passed : Bool
  details : List (String × String)
deriving DecidableEq, Repr

/-- One Great Expectations outcome: expectation type and success flag. -/
structure Expectation where
  etype : String
  success : Bool
deriving DecidableEq, Repr

/-- Result of the data-quality check with its expectation list. -/
structure CheckDQ where
  passed : Bool
  expectations : List Expectation
deriving DecidableEq, Repr

/-- The fixed six-check comparison result dictionary. -/
structure Results where
  row_count : CheckRC
  duplicates : CheckDup
  null_values : CheckNull
  business_rules : CheckBR
  column_mapping : CheckCM
  data_quality : CheckDQ
deriving DecidableEq, Repr

/-- The guard of the business-rule check:
`all(col in common_columns for col in ["Column A", "Column B", "Column C"])`. -/
def brCond (src tgt : DataFrame) : Prop :=
  "Column A" ∈ commonNames src tgt ∧ "Column B" ∈ commonNames src tgt ∧
    "Column C" ∈ commonNames src tgt

instance (src tgt : DataFrame) : Decidable (brCond src tgt) := by
  unfold brCond; infer_instance

/-- The business-rule check (Column A + Column B = Column C), evaluated on
the already renamed/pruned frames.  When the three columns are present the
sum and the elementwise comparison are computed; comparing series of
different lengths raises, exactly as pandas does for differently indexed
series. -/
def businessRules (src tgt : DataFrame) : Except String CheckBR :=
  if brCond src tgt then
    match getColumn src "Column A", getColumn src "Column B", getColumn tgt "Column C" with
    | some (da, av), some (db, bv), some (_, cv) =>
        match seriesAdd da db av bv with
        | .error e => .error e
        | .ok sums =>
            if sums.length = cv.length then
              .ok ⟨(List.zipWith eqCell sums cv).all id,
                   some ((List.zipWith eqCell sums cv).all id,
                         ((List.zipWith eqCell sums cv).filter (fun b => !b)).length)⟩
            else .error "Can only compare identically-labeled Series objects"
    | _, _, _ => .error "KeyError"
  else .ok ⟨false, none⟩

/-- `expect_column_values_to_be_of_type(column, t)`: vacuously true on a
column with no non-null values, otherwise the column's dtype must match. -/
def colTypeOk (dt : Dtype) (cells : List Cell) (t : String) : Bool :=
  cells.all (fun c => c = none) || (dt.name = t)

/-- The Great Expectations block: two table-level expectations per side and,
for each common column, a typed expectation chosen from the source dtype
and applied to both sides. -/
def dataQuality (src tgt : DataFrame) : CheckDQ :=
  let base : List Expectation :=
    [⟨"expect_table_row_count_to_be_between", decide (1 ≤ src.rows.length)⟩,
     ⟨"expect_table_columns_to_match_ordered_list", true⟩,
     ⟨"expect_table_row_count_to_be_between", decide (1 ≤ tgt.rows.length)⟩,
     ⟨"expect_table_columns_to_match_ordered_list", true⟩]
  let colExp : List Expectation :=
    (commonNames src tgt).flatMap (fun c =>
      match getColumn src c, getColumn tgt c with
      | some (sd, sc), some (td, tc) =>
          if sd = .int64 ∨ sd = .float64 then
            [⟨"expect_column_values_to_be_of_type", colTypeOk sd sc "int64"⟩,
             ⟨"expect_column_values_to_be_of_type", colTypeOk td tc "int64"⟩]
          else
            [⟨"expect_column_values_to_be_of_type", colTypeOk sd sc "object"⟩,
             ⟨"expect_column_values_to_be_of_type", colTypeOk td tc "object"⟩]
      | _, _ => [])
  let exps := base ++ colExp
  ⟨exps.all (fun e => e.success), exps⟩

/-- The source frame after column mapping and removal of ignored columns. -/
def srcTransformed (source : DataFrame) (mapping : List (String × String))
    (ignored : List String) : DataFrame :=
  dropColsDF (renameDF source mapping) ignored

/-- The target frame after removal of ignored columns (the rename applies
only to the source side). -/
def tgtTransformed (target : DataFrame) (ignored : List String) : DataFrame :=
  dropColsDF target ignored

/-- The row-count check on the transformed frames. -/
def rowCountCheck (src tgt : DataFrame) : CheckRC :=
  ⟨src.rows.length = tgt.rows.length, src.rows.length, tgt.rows.length,
   ((src.rows.length : Int) - (tgt.rows.length : Int)).natAbs⟩

/-- The duplicate check on the transformed frames. -/
def dupCheck (src tgt : DataFrame) : CheckDup :=
  ⟨dupCount src.rows = dupCount tgt.rows, dupCount src.rows, dupCount tgt.rows⟩

/-- The null-value check on the transformed frames. -/
def nullCheck (src tgt : DataFrame) : CheckNull :=
  ⟨dictEqB (nullCounts src) (nullCounts tgt), nullCounts src, nullCounts tgt⟩

/-- Body of `perform_comparison` before the outer `except` clause. -/
def performComparisonCore (source target : DataFrame)
    (mapping : List (String × String)) (ignored : List String) :
    Except String Results :=
  match businessRules (srcTransformed source mapping ignored)
      (tgtTransformed target ignored) with
  | .error e => .error e
  | .ok br =>
      .ok ⟨rowCountCheck (srcTransformed source mapping ignored) (tgtTransformed target ignored),
           dupCheck (srcTransformed source mapping ignored) (tgtTransformed target ignored),
           nullCheck (srcTransformed source mapping ignored) (tgtTransformed target ignored),
           br, ⟨false, []⟩,
           dataQuality (srcTransformed source mapping ignored) (tgtTransformed target ignored)⟩

/-- `perform_comparison`: runs the checks and wraps any raised error into
one generic error carrying the cause's message. -/
def perform_comparison (source target : DataFrame)
    (mapping : List (String × String)) (ignored : List String) :
    Except String Results :=
  match performComparisonCore source target mapping ignored with
  | .ok r => .ok r
  | .error e => .error ("Error during comparison: " ++ e)

/-- `load_data`: each branch of the source-type dispatch either yields the
outcome of its underlying read (abstracted as the `input` parameter) or,
when its input is missing, falls through to `return pd.DataFrame()`; any
raised error is wrapped with the source-type label. -/
def load_data (source_type : String) (input : Option (Except String DataFrame)) :
    Except String DataFrame :=
  match (match input with
         | some r => r
         | none => .ok emptyDF : Except String DataFrame) with
  | .ok df => .ok df
  | .error e => .error ("Error loading data from " ++ source_type ++ ": " ++ e)

/-!  `difflib.SequenceMatcher` on column names.

Column names are far below the 200-character autojunk threshold and contain
no junk elements, so `find_longest_match` reduces to: the longest common
substring of the two ranges, ties broken by the smallest start position in
`a`, then the smallest start position in `b` (CPython scans end positions
in that order and only replaces the best on a strictly larger size).  -/

/-- Length of the common prefix of two character lists. -/
def runLen : List Char → List Char → Nat
  | x :: xs, y :: ys => if x = y then runLen xs ys + 1 else 0
  | _, _ => 0

/-- The match length starting at positions `i`, `j` inside the ranges
`[alo, ahi)` and `[blo, bhi)`. -/
def matchLenAt (a b : List Char) (ahi bhi i j : Nat) : Nat :=
  runLen ((a.drop i).take (ahi - i)) ((b.drop j).take (bhi - j))

/-- `find_longest_match(alo, ahi, blo, bhi)`: best `(i, j, size)`. -/
def findLongestMatch (a b : List Char) (alo ahi blo bhi : Nat) : Nat × Nat × Nat :=
  (List.range' alo (ahi - alo)).foldl (fun best i =>
    (List.range' blo (bhi - blo)).foldl (fun best j =>
      if matchLenAt a b ahi bhi i j > best.2.2
      then (i, j, matchLenAt a b ahi bhi i j) else best) best) (alo, blo, 0)

/-- Total size of `get_matching_blocks`, computed by the recursive
divide-and-conquer of `difflib`; the fuel argument only serves termination
and `la + lb + 1` is always sufficient since each recursive call strictly
shrinks the combined range. -/
def matchingTotalAux (a b : List Char) : Nat → Nat → Nat → Nat → Nat → Nat
  | 0, _, _, _, _ => 0
  | fuel + 1, alo, ahi, blo, bhi =>
      match findLongestMatch a b alo ahi blo bhi with
      | (i, j, k) =>
          if k = 0 then 0
          else matchingTotalAux a b fuel alo i blo j + k +
               matchingTotalAux a b fuel (i + k) ahi (j + k) bhi

/-- Sum of the sizes of all matching blocks of `a` and `b`. -/
def matchingTotal (a b : List Char) : Nat :=
  matchingTotalAux a b (a.length + b.length + 1) 0 a.length 0 b.length

/-- `SequenceMatcher(None, a, b).ratio()` as an exact rational;
`2.0 * M / T` with `ratio = 1` when both sequences are empty. -/
def smRatio (a b : List Char) : ℚ :=
  if a.length + b.length = 0 then 1
  else (2 * matchingTotal a b : ℚ) / (a.length + b.length : ℚ)

/-- `get_column_similarity`: ratio of the lower-cased column names
(`str.lower` agrees with `Char.toLower` on the ASCII column names this
program handles). -/
def get_column_similarity (col1 col2 : String) : ℚ :=
  smRatio (col1.data.map Char.toLower) (col2.data.map Char.toLower)

/-- Python's `max(list, key=...)` over `(target, similarity)` pairs: raises
on an empty sequence, otherwise keeps the first pair attaining the maximal
similarity (later pairs replace the best only on strict increase). -/
def pyMaxBySnd : List (String × ℚ) → Except String (String × ℚ)
  | [] => .error "max() arg is an empty sequence"
  | x :: xs => .ok (xs.foldl (fun best y => if y.2 > best.2 then y else best) x)

/-- Loop body of `auto_map_columns` over the source columns. -/
def autoMapGo (target_cols : List String) :
    List String → List (String × String) → Except String (List (String × String))
  | [], acc => .ok acc
  | s :: rest, acc =>
      match pyMaxBySnd (target_cols.map (fun t => (t, get_column_similarity s t))) with
      | .error e => .error e
      | .ok best =>
          autoMapGo target_cols rest
            (if best.2 > (3 : ℚ) / 5 then acc ++ [(s, best.1)] else acc)

/-- `auto_map_columns`: maps each source column to its most similar target
column when the similarity exceeds the 0.6 threshold. -/
def auto_map_columns (source_cols target_cols : List String) :
    Except String (List (String × String)) :=
  autoMapGo target_cols source_cols []

/-!  `metadata_processor.py`. -/

/-- One row of the metadata spreadsheet; `none` models a missing (`NaN`)
cell. -/
structure MetaRow where
  skipFile : Option String
  comparisonType : Option String
  filename1 : Option String
  filename2 : Option String
  separator1 : Option String
  separator2 : Option String
  columnMapping : Option String
  ignoredColumns : Option String
deriving DecidableEq, Repr

/-- One parsed comparison job. -/
structure ComparisonPair where
  source_file : String
  target_file : String
  comparison_type : String
  source_type : String
  target_type : String
  source_separator : String
  target_separator : String
  mapping : List (String × String)
  ignored_columns : List String
deriving DecidableEq, Repr

/-- `str(row.get(field, ''))` for a cell that may be missing; `str(nan)` is
`"nan"`, which behaves like any other non-`#` text for this program. -/
def pyStr (o : Option String) : String :=
  match o with
  | some s => s
  | none => "nan"

/-- Python's `str.split(sep)` for a one-character separator, over the
character list: never empty, `"".split(sep) == ['']`. -/
def pySplit (sep : Char) : List Char → List (List Char)
  | [] => [[]]
  | c :: rest =>
      if c = sep then [] :: pySplit sep rest
      else
        match pySplit sep rest with
        | g :: gs => (c :: g) :: gs
        | [] => [[c]]

/-- Python's `str.strip()`: drop leading and trailing whitespace. -/
def pyStrip (l : List Char) : List Char :=
  ((l.dropWhile Char.isWhitespace).reverse.dropWhile Char.isWhitespace).reverse

/-- The loop of `_get_column_mapping`: each `"src:tgt"` piece must split on
`':'` into exactly two parts; the first malformed piece raises, the bare
`except: pass` swallows it, and the pairs accumulated so far are returned. -/
def parseMappingPairs : List (List Char) → List (String × String) → List (String × String)
  | [], acc => acc
  | p :: rest, acc =>
      match pySplit ':' p with
      | [s, t] => parseMappingPairs rest (acc ++ [(String.mk (pyStrip s), String.mk (pyStrip t))])
      | _ => acc

/-- `_get_column_mapping`. -/
def get_column_mapping (row : MetaRow) : List (String × String) :=
  match row.columnMapping with
  | none => []
  | some s => if s = "" then [] else parseMappingPairs (pySplit ',' s.data) []

/-- `_get_ignored_columns`. -/
def get_ignored_columns (row : MetaRow) : List String :=
  match row.ignoredColumns with
  | none => []
  | some s =>
      if s = "" then []
      else (pySplit ',' s.data).map (fun l => String.mk (pyStrip l))

/-- Whether a metadata row is skipped: its `SkipFile` text, stripped,
starts with `'#'`. -/
def rowSkipped (row : MetaRow) : Bool :=
  match pyStrip (pyStr row.skipFile).data with
  | c :: _ => c = '#'
  | [] => false

/-- Build the job for one surviving metadata row, or `none` when the row is
skipped or its comparison type is not `'Feed To Feed'`. -/
def rowToPair (row : MetaRow) : Option ComparisonPair :=
  if rowSkipped row then none
  else if (row.comparisonType.getD "") = "Feed To Feed" then
    some ⟨pyStr row.filename1, pyStr row.filename2, "Feed To Feed",
          "CSV file", "CSV file",
          row.separator1.getD ",", row.separator2.getD ",",
          get_column_mapping row, get_ignored_columns row⟩
  else none

/-- `MetadataProcessor.get_comparison_pairs` over the parsed rows. -/
def get_comparison_pairs (rows : List MetaRow) : List ComparisonPair :=
  rows.filterMap rowToPair

/-!  `reports.generate_data_diff_report`. -/

/-- Projection of one row onto the listed columns of its frame (missing
entries never arise for well-formed frames). -/
def projectRow (df : DataFrame) (cols : List String) (r : List Cell) : List Cell :=
  cols.map (fun c =>
    match df.cols.findIdx? (fun p => p.1 = c) with
    | some i => r.getD i none
    | none => none)

/-- All rows of `df` projected onto the listed common columns. -/
def projRows (df : DataFrame) (cols : List String) : List (List Cell) :=
  df.rows.map (projectRow df cols)

/-- The concatenation `pd.concat([source_df, target_df])` after both sides
were projected onto the common columns and given their `_source` label. -/
def taggedRows (sp tp : List (List Cell)) (sTag tTag : Cell) : List (List Cell) :=
  sp.map (fun q => q ++ [sTag]) ++ tp.map (fun q => q ++ [tTag])

/-- `drop_duplicates(subset=common_columns, keep=False)`: keep a combined
row exactly when its projection onto the first `n` (common) columns occurs
exactly once among all combined rows. -/
def keptRows (sp tp : List (List Cell)) (n : Nat) (sTag tTag : Cell) :
    List (List Cell) :=
  (taggedRows sp tp sTag tTag).filter
    (fun r => ((taggedRows sp tp sTag tTag).filter
        (fun q => q.take n = r.take n)).length = 1)

/-- `generate_data_diff_report` without the file write: project both frames
onto their common columns, tag each row with its `_source` label,
concatenate, keep only rows whose projection occurs exactly once
(`drop_duplicates(subset=common_columns, keep=False)`), and stamp each
surviving row with the `_timestamp` column.  The report's column headers
are the common columns plus the two tag columns. -/
def generate_data_diff_report (src tgt : DataFrame) (now : String) : DataFrame :=
  ⟨((commonNames src tgt).map (fun c => (c, Dtype.object))) ++
     [("_source", Dtype.object), ("_timestamp", Dtype.object)],
   (keptRows (projRows src (commonNames src tgt))
       (projRows tgt (commonNames src tgt)) (commonNames src tgt).length
       (some (.str "source")) (some (.str "target"))).map
     (fun r => r ++ [some (.str now)])⟩

/-!  Spec-side predicates used to state the claims. -/

/-- `df` with one row appended. -/
def appendRow (df : DataFrame) (r : List Cell) : DataFrame :=
  ⟨df.cols, df.rows ++ [r]⟩

/-- Row `k` satisfies the business rule: the sum of the `Column A` and
`Column B` cells is defined and equal to the `Column C` cell. -/
def rowOk (da db : Dtype) (av bv cv : List Cell) (k : Nat) : Bool :=
  match av.get? k, bv.get? k, cv.get? k with
  | some a, some b, some c =>
      match cellAdd da db a b with
      | .ok s => eqCell s c
      | .error _ => false
  | _, _, _ => false

/-- Number of rows violating the business rule. -/
def mismatchCount (da db : Dtype) (av bv cv : List Cell) : Nat :=
  ((List.range cv.length).filter (fun k => !rowOk da db av bv cv k)).length

/-- The business rule is evaluated and satisfied on every row. -/
def brPasses (src tgt : DataFrame) : Prop :=
  brCond src tgt ∧ ∀ da av db bv dc cv,
    getColumn src "Column A" = some (da, av) →
    getColumn src "Column B" = some (db, bv) →
    getColumn tgt "Column C" = some (dc, cv) →
    ∀ k, k < cv.length → rowOk da db av bv cv k = true

/-!  Claim C7: the column-mapping entry is never populated. -/

/-- C7: for every pair of input tables, every rename mapping and every
exclusion list, the `column_mapping` entry of a returned comparison result
is not-passed with empty details. -/
theorem claim_C7_column_mapping_never_populated :
    ∀ source target mapping ignored res,
      perform_comparison source target mapping ignored = .ok res →
      res.column_mapping = ⟨false, []⟩ := by
  intro source target mapping ignored res h
  unfold perform_comparison performComparisonCore at h
  cases hbr : businessRules (srcTransformed source mapping ignored)
      (tgtTransformed target ignored) with
  | error e => simp only [hbr] at h; exact Except.noConfusion h
  | ok br =>
      simp only [hbr, Except.ok.injEq] at h
      rw [← h]

/-- Witness for C7 at a concrete input. -/
theorem claim_C7_witness :
    ∃ res, perform_comparison emptyDF emptyDF [] [] = .ok res ∧
      res.column_mapping = ⟨false, []⟩ :=
  ⟨⟨⟨true, 0, 0, 0⟩, ⟨true, 0, 0⟩, ⟨true, [], []⟩, ⟨false, none⟩, ⟨false, []⟩,
    ⟨false, [⟨"expect_table_row_count_to_be_between", false⟩,
             ⟨"expect_table_columns_to_match_ordered_list", true⟩,
             ⟨"expect_table_row_count_to_be_between", false⟩,
             ⟨"expect_table_columns_to_match_ordered_list", true⟩]⟩⟩,
   rfl,
   claim_C7_column_mapping_never_populated emptyDF emptyDF [] [] _ rfl⟩

/-!  Claim C8: failures are wrapped into one generic error; the caller gets
either the complete six-check result (the `Results` record always carries
all six checks) or a single wrapped error, never a partial result. -/

/-- C8: loading and comparison either return a complete result or a single
generic error whose message carries the original cause's message. -/
theorem claim_C8_error_wrapping :
    (∀ source target mapping ignored,
        (∃ res, perform_comparison source target mapping ignored = .ok res) ∨
        (∃ msg, perform_comparison source target mapping ignored =
            .error ("Error during comparison: " ++ msg))) ∧
    (∀ source_type input,
        (∃ df, load_data source_type input = .ok df) ∨
        (∃ msg, load_data source_type input =
            .error ("Error loading data from " ++ source_type ++ ": " ++ msg))) := by
  constructor
  · intro source target mapping ignored
    unfold perform_comparison
    cases h : performComparisonCore source target mapping ignored with
    | ok r => exact .inl ⟨r, rfl⟩
    | error e => exact .inr ⟨e, rfl⟩
  · intro st input
    unfold load_data
    match input with
    | none => exact .inl ⟨emptyDF, rfl⟩
    | some (.ok df) => exact .inl ⟨df, rfl⟩
    | some (.error e) => exact .inr ⟨e, rfl⟩

/-!  Claim C10: the auto-mapper raises on an empty target column list, an
input reachable because the loader returns the empty, column-less frame for
missing inputs. -/

/-- C10: a non-empty source column list with no target columns makes
`auto_map_columns` raise `max()`'s empty-sequence error instead of
returning an empty mapping, and the loader does return the column-less
empty frame for a missing input. -/
theorem claim_C10_empty_targets_error :
    ∀ source_cols : List String, source_cols ≠ [] →
      auto_map_columns source_cols [] = .error "max() arg is an empty sequence" ∧
      (∀ source_type, load_data source_type none = .ok emptyDF) ∧
      emptyDF.names = [] := by
  intro sc h
  refine ⟨?_, fun st => rfl, rfl⟩
  cases sc with
  | nil => exact absurd rfl h
  | cons s rest => rfl

/-- Witness for C10 at a concrete input. -/
theorem claim_C10_witness :
    auto_map_columns ["full_name"] [] = .error "max() arg is an empty sequence" ∧
    load_data "CSV file" none = .ok emptyDF ∧ emptyDF.names = [] :=
  ⟨(claim_C10_empty_targets_error ["full_name"] (by decide)).1,
   (claim_C10_empty_targets_error ["full_name"] (by decide)).2.1 "CSV file",
   (claim_C10_empty_targets_error ["full_name"] (by decide)).2.2⟩

/-!  Claim C6: metadata parsing. -/

/-- Rows with `f _ = none` under filter removal do not change a
`filterMap`. -/
theorem filterMap_filter_of_none {α β : Type} (f : α → Option β) (p : α → Bool)
    (l : List α) (h : ∀ a ∈ l, p a = false → f a = none) :
    (l.filter p).filterMap f = l.filterMap f := by
  induction l with
  | nil => rfl
  | cons a l ih =>
      have ht := h a (List.mem_cons_self a l)
      have ih' := ih (fun a ha => h a (List.mem_cons_of_mem _ ha))
      cases hp : p a with
      | true => simp [List.filter_cons, hp, List.filterMap_cons, ih']
      | false => simp [List.filter_cons, hp, List.filterMap_cons, ht hp, ih']

/-- C6 (amended): skipped rows contribute nothing to the job list (in
particular a `SkipFile` of `"#Skip this comparison"` excludes its row); the
well-formed mapping string parses to exactly its two pairs; and a malformed
mapping piece aborts the parse loop keeping only the pairs parsed before
it — so a mapping string whose first piece is malformed (e.g. missing its
colon) yields an empty mapping without raising. -/
theorem claim_C6_amended :
    (∀ rows : List MetaRow,
        get_comparison_pairs (rows.filter (fun r => !rowSkipped r)) =
          get_comparison_pairs rows) ∧
    (∀ row : MetaRow, rowSkipped row = true → rowToPair row = none) ∧
    rowToPair ⟨some "#Skip this comparison", some "Feed To Feed", some "a.csv",
               some "b.csv", some ",", some ",", none, none⟩ = none ∧
    get_column_mapping ⟨none, none, none, none, none, none,
        some "name:full_name,salary:annual_salary", none⟩ =
      [("name", "full_name"), ("salary", "annual_salary")] ∧
    (∀ p rest acc, (pySplit ':' p).length ≠ 2 →
        parseMappingPairs (p :: rest) acc = acc) ∧
    get_column_mapping ⟨none, none, none, none, none, none,
        some "namefull_name", none⟩ = [] := by
  refine ⟨?_, ?_, rfl, rfl, ?_, rfl⟩
  · intro rows
    unfold get_comparison_pairs
    apply filterMap_filter_of_none
    intro r _ hr
    unfold rowToPair
    simp only [Bool.not_eq_false'] at hr
    simp [hr]
  · intro row h
    unfold rowToPair
    simp [h]
  · intro p rest acc h
    unfold parseMappingPairs
    cases hsp : pySplit ':' p with
    | nil => rfl
    | cons s tl =>
        cases tl with
        | nil => rfl
        | cons t tl2 =>
            cases tl2 with
            | nil => exact absurd (by rw [hsp]; rfl) h
            | cons u tl3 => rfl

/-- Counterexample to C6 as stated: the malformed mapping string
`"name:full_name,salary"` (second piece missing its colon) yields the
non-empty mapping containing the first pair, not the empty mapping. -/
theorem claim_C6_counterexample :
    get_column_mapping ⟨none, none, none, none, none, none,
        some "name:full_name,salary", none⟩ = [("name", "full_name")] ∧
    [("name", "full_name")] ≠ ([] : List (String × String)) :=
  ⟨rfl, by decide⟩

/-- Witness for C6 at concrete inputs. -/
theorem claim_C6_witness :
    get_comparison_pairs
        (List.filter (fun r => !rowSkipped r)
          [⟨some "#x", some "Feed To Feed", none, none, none, none, none, none⟩]) =
      get_comparison_pairs
        [⟨some "#x", some "Feed To Feed", none, none, none, none, none, none⟩] ∧
    parseMappingPairs ["namefull_name".data] [] = [] :=
  ⟨claim_C6_amended.1 [⟨some "#x", some "Feed To Feed", none, none, none, none, none, none⟩],
   claim_C6_amended.2.2.2.2.1 "namefull_name".data [] [] (by decide)⟩

/-!  Claim C5: the auto column mapper.  Supporting lemmas about the
similarity ratio and the maximum pick. -/

/-- A fold preserves any invariant of its accumulator. -/
theorem foldl_invariant {α β : Type} (P : β → Prop) (f : β → α → β) (l : List α)
    (init : β) (h0 : P init)
    (hstep : ∀ acc a, a ∈ l → P acc → P (f acc a)) : P (l.foldl f init) := by
  induction l generalizing init with
  | nil => exact h0
  | cons a l ih =>
      exact ih (f init a) (hstep init a (List.mem_cons_self a l) h0)
        (fun acc x hx hacc => hstep acc x (List.mem_cons_of_mem a hx) hacc)

/-- The common-prefix length is at most the first length. -/
theorem runLen_le_left : ∀ xs ys : List Char, runLen xs ys ≤ xs.length := by
  intro xs
  induction xs with
  | nil => intro ys; cases ys <;> simp [runLen]
  | cons x xs ih =>
      intro ys
      cases ys with
      | nil => simp [runLen]
      | cons y ys =>
          by_cases h : x = y
          · simpa [runLen, h] using ih ys
          · simp [runLen, h]

/-- The common-prefix length is at most the second length. -/
theorem runLen_le_right : ∀ xs ys : List Char, runLen xs ys ≤ ys.length := by
  intro xs
  induction xs with
  | nil => intro ys; cases ys <;> simp [runLen]
  | cons x xs ih =>
      intro ys
      cases ys with
      | nil => simp [runLen]
      | cons y ys =>
          by_cases h : x = y
          · simpa [runLen, h] using ih ys
          · simp [runLen, h]

/-- A match starting at `i` stays inside `[i, ahi)`. -/
theorem matchLenAt_le_left (a b : List Char) (ahi bhi i j : Nat) :
    matchLenAt a b ahi bhi i j ≤ ahi - i := by
  unfold matchLenAt
  refine (runLen_le_left _ _).trans ?_
  rw [List.length_take]
  exact min_le_left _ _

/-- A match starting at `j` stays inside `[j, bhi)`. -/
theorem matchLenAt_le_right (a b : List Char) (ahi bhi i j : Nat) :
    matchLenAt a b ahi bhi i j ≤ bhi - j := by
  unfold matchLenAt
  refine (runLen_le_right _ _).trans ?_
  rw [List.length_take]
  exact min_le_left _ _

/-- The block found by `find_longest_match` lies inside the given ranges. -/
theorem findLongestMatch_bounds (a b : List Char) (alo ahi blo bhi : Nat)
    (h1 : alo ≤ ahi) (h2 : blo ≤ bhi) :
    alo ≤ (findLongestMatch a b alo ahi blo bhi).1 ∧
    blo ≤ (findLongestMatch a b alo ahi blo bhi).2.1 ∧
    (findLongestMatch a b alo ahi blo bhi).1 +
      (findLongestMatch a b alo ahi blo bhi).2.2 ≤ ahi ∧
    (findLongestMatch a b alo ahi blo bhi).2.1 +
      (findLongestMatch a b alo ahi blo bhi).2.2 ≤ bhi := by
  unfold findLongestMatch
  apply foldl_invariant
    (P := fun r : Nat × Nat × Nat =>
      alo ≤ r.1 ∧ blo ≤ r.2.1 ∧ r.1 + r.2.2 ≤ ahi ∧ r.2.1 + r.2.2 ≤ bhi)
  · exact ⟨le_refl _, le_refl _, by simpa using h1, by simpa using h2⟩
  · intro acc i hi hacc
    have hi' : alo ≤ i ∧ i < ahi := by
      rw [List.mem_range'] at hi
      obtain ⟨k, hk, rfl⟩ := hi
      omega
    apply foldl_invariant
      (P := fun r : Nat × Nat × Nat =>
        alo ≤ r.1 ∧ blo ≤ r.2.1 ∧ r.1 + r.2.2 ≤ ahi ∧ r.2.1 + r.2.2 ≤ bhi)
    · exact hacc
    · intro acc2 j hj hacc2
      have hj' : blo ≤ j ∧ j < bhi := by
        rw [List.mem_range'] at hj
        obtain ⟨k, hk, rfl⟩ := hj
        omega
      by_cases hgt : matchLenAt a b ahi bhi i j > acc2.2.2
      · rw [if_pos hgt]
        have hka := matchLenAt_le_left a b ahi bhi i j
        have hkb := matchLenAt_le_right a b ahi bhi i j
        refine ⟨hi'.1, hj'.1, ?_, ?_⟩
        · show i + matchLenAt a b ahi bhi i j ≤ ahi
          omega
        · show j + matchLenAt a b ahi bhi i j ≤ bhi
          omega
      · rw [if_neg hgt]
        exact hacc2

/-- Total matched size is at most either range length. -/
theorem matchingTotalAux_le (a b : List Char) :
    ∀ (fuel alo ahi blo bhi : Nat), alo ≤ ahi → blo ≤ bhi →
      matchingTotalAux a b fuel alo ahi blo bhi ≤ min (ahi - alo) (bhi - blo) := by
  intro fuel
  induction fuel with
  | zero => intro alo ahi blo bhi h1 h2; simp [matchingTotalAux]
  | succ fuel ih =>
      intro alo ahi blo bhi h1 h2
      obtain ⟨hb1, hb2, hb3, hb4⟩ := findLongestMatch_bounds a b alo ahi blo bhi h1 h2
      rcases hfl : findLongestMatch a b alo ahi blo bhi with ⟨i, j, k⟩
      have hb1' : alo ≤ i := by rw [hfl] at hb1; exact hb1
      have hb2' : blo ≤ j := by rw [hfl] at hb2; exact hb2
      have hb3' : i + k ≤ ahi := by rw [hfl] at hb3; exact hb3
      have hb4' : j + k ≤ bhi := by rw [hfl] at hb4; exact hb4
      simp only [matchingTotalAux, hfl]
      by_cases hk : k = 0
      · rw [if_pos hk]
        exact Nat.zero_le _
      · rw [if_neg hk]
        have e1 := ih alo i blo j hb1' hb2'
        have e2 := ih (i + k) ahi (j + k) bhi hb3' hb4'
        have e1a := e1.trans (min_le_left _ _)
        have e1b := e1.trans (min_le_right _ _)
        have e2a := e2.trans (min_le_left _ _)
        have e2b := e2.trans (min_le_right _ _)
        refine le_min ?_ ?_ <;> omega

/-- The similarity ratio lies in `[0, 1]`. -/
theorem get_column_similarity_bounds (s t : String) :
    0 ≤ get_column_similarity s t ∧ get_column_similarity s t ≤ 1 := by
  unfold get_column_similarity smRatio
  set a := s.data.map Char.toLower with ha
  set b := t.data.map Char.toLower with hb
  by_cases h : a.length + b.length = 0
  · rw [if_pos h]
    norm_num
  · rw [if_neg h]
    have hM := matchingTotalAux_le a b (a.length + b.length + 1) 0 a.length 0 b.length
      (Nat.zero_le _) (Nat.zero_le _)
    have hMa : matchingTotal a b ≤ a.length := by
      have := hM.trans (min_le_left _ _)
      simpa [matchingTotal] using this
    have hMb : matchingTotal a b ≤ b.length := by
      have := hM.trans (min_le_right _ _)
      simpa [matchingTotal] using this
    have hpos : (0 : ℚ) < (a.length : ℚ) + (b.length : ℚ) := by
      have h0 : 0 < a.length + b.length := Nat.pos_of_ne_zero h
      exact_mod_cast h0
    constructor
    · apply div_nonneg
      · positivity
      · exact le_of_lt hpos
    · rw [div_le_one hpos]
      have h2 : 2 * matchingTotal a b ≤ a.length + b.length := by omega
      exact_mod_cast h2

/-- Python's `max` with a key returns the first element attaining the
maximal key: the list splits into a strictly smaller prefix, the returned
element, and a no-larger suffix. -/
theorem pyMax_spec (x : String × ℚ) (xs : List (String × ℚ)) :
    ∃ m, pyMaxBySnd (x :: xs) = .ok m ∧
      ∃ pre post, x :: xs = pre ++ m :: post ∧
        (∀ y ∈ pre, y.2 < m.2) ∧ (∀ y ∈ post, y.2 ≤ m.2) := by
  induction xs generalizing x with
  | nil => exact ⟨x, rfl, [], [], rfl, by simp, by simp⟩
  | cons y ys ih =>
      have unf : pyMaxBySnd (x :: y :: ys) =
          pyMaxBySnd ((if y.2 > x.2 then y else x) :: ys) := rfl
      obtain ⟨m, hm, pre, post, hsplit, hpre, hpost⟩ := ih (if y.2 > x.2 then y else x)
      have hok : pyMaxBySnd (x :: y :: ys) = .ok m := unf.trans hm
      by_cases hxy : y.2 > x.2
      · rw [if_pos hxy] at hsplit
        cases pre with
        | nil =>
            simp only [List.nil_append, List.cons.injEq] at hsplit
            refine ⟨m, hok, [x], post, ?_, ?_, hpost⟩
            · simp [hsplit.1, hsplit.2]
            · intro z hz
              simp only [List.mem_singleton] at hz
              subst hz
              rw [← hsplit.1]
              exact hxy
        | cons p pre' =>
            simp only [List.cons_append, List.cons.injEq] at hsplit
            refine ⟨m, hok, x :: p :: pre', post, ?_, ?_, hpost⟩
            · simp [hsplit.1, hsplit.2]
            · intro z hz
              rcases List.mem_cons.mp hz with rfl | hz'
              · have hp : p.2 < m.2 := hpre p (List.mem_cons_self p pre')
                have : z.2 < p.2 := by rw [← hsplit.1]; exact hxy
                exact lt_trans this hp
              · exact hpre z hz'
      · rw [if_neg hxy] at hsplit
        have hyx : y.2 ≤ x.2 := le_of_not_lt hxy
        cases pre with
        | nil =>
            simp only [List.nil_append, List.cons.injEq] at hsplit
            refine ⟨m, hok, [], y :: post, ?_, by simp, ?_⟩
            · simp [hsplit.1, hsplit.2]
            · intro z hz
              rcases List.mem_cons.mp hz with rfl | hz'
              · rw [← hsplit.1]; exact hyx
              · exact hpost z hz'
        | cons p pre' =>
            simp only [List.cons_append, List.cons.injEq] at hsplit
            have hx2 : x.2 < m.2 := by
              rw [hsplit.1]
              exact hpre p (List.mem_cons_self p pre')
            refine ⟨m, hok, x :: y :: pre', post, ?_, ?_, hpost⟩
            · simp [hsplit.1, hsplit.2]
            · intro z hz
              rcases List.mem_cons.mp hz with rfl | hz'
              · exact hx2
              · rcases List.mem_cons.mp hz' with rfl | hz''
                · exact lt_of_le_of_lt hyx hx2
                · exact hpre z (List.mem_cons_of_mem p hz'')

/-- `t` is the first target column attaining the maximal similarity to the
source column `s`. -/
def firstMaxTarget (s : String) (tcs : List String) (t : String) : Prop :=
  ∃ pre post, tcs = pre ++ t :: post ∧
    (∀ u ∈ pre, get_column_similarity s u < get_column_similarity s t) ∧
    (∀ u ∈ post, get_column_similarity s u ≤ get_column_similarity s t)

/-- A strictly-smaller-prefix / no-larger-suffix split determines its
middle element. -/
theorem firstArgmax_unique {α : Type} (f : α → ℚ) :
    ∀ (pre : List α) {l post pre' post' : List α} {t t' : α},
      l = pre ++ t :: post → l = pre' ++ t' :: post' →
      (∀ u ∈ pre, f u < f t) → (∀ u ∈ post, f u ≤ f t) →
      (∀ u ∈ pre', f u < f t') → (∀ u ∈ post', f u ≤ f t') → t = t' := by
  intro pre
  induction pre with
  | nil =>
      intro l post pre' post' t t' h1 h2 hpre hpost hpre' hpost'
      subst h1
      cases pre' with
      | nil =>
          simp only [List.nil_append, List.cons.injEq] at h2
          exact h2.1
      | cons b pre2 =>
          simp only [List.nil_append, List.cons_append, List.cons.injEq] at h2
          have h3 : f t < f t' := by
            rw [h2.1]
            exact hpre' b (List.mem_cons_self b pre2)
          have h4 : f t' ≤ f t := by
            apply hpost
            rw [h2.2]
            exact List.mem_append_right _ (List.mem_cons_self t' post')
          exact absurd h3 (not_lt.mpr h4)
  | cons a pre2 ih =>
      intro l post pre' post' t t' h1 h2 hpre hpost hpre' hpost'
      subst h1
      cases pre' with
      | nil =>
          simp only [List.cons_append, List.nil_append, List.cons.injEq] at h2
          have h3 : f t ≤ f t' := by
            apply hpost'
            rw [← h2.2]
            exact List.mem_append_right _ (List.mem_cons_self t post)
          have h4 : f t' < f t := by
            rw [← h2.1]
            exact hpre a (List.mem_cons_self a pre2)
          exact absurd h4 (not_lt.mpr h3)
      | cons b pre2' =>
          simp only [List.cons_append, List.cons.injEq] at h2
          exact ih rfl h2.2
            (fun u hu => hpre u (List.mem_cons_of_mem a hu)) hpost
            (fun u hu => hpre' u (List.mem_cons_of_mem b hu)) hpost'

/-- The first maximal target is unique. -/
theorem firstMaxTarget_unique {s : String} {tcs : List String} {t₁ t₂ : String}
    (h1 : firstMaxTarget s tcs t₁) (h2 : firstMaxTarget s tcs t₂) : t₁ = t₂ := by
  obtain ⟨pre, post, hs, hp, hq⟩ := h1
  obtain ⟨pre', post', hs', hp', hq'⟩ := h2
  exact firstArgmax_unique (get_column_similarity s) pre hs (hs ▸ hs') hp hq hp' hq'

/-- The pick of `max(similarities, key=...)` is the first maximal target. -/
theorem pyMax_firstMax (s : String) (tcs : List String) (h : tcs ≠ []) :
    ∃ t, t ∈ tcs ∧
      pyMaxBySnd (tcs.map (fun u => (u, get_column_similarity s u))) =
        .ok (t, get_column_similarity s t) ∧
      firstMaxTarget s tcs t := by
  cases tcs with
  | nil => exact absurd rfl h
  | cons t0 ts =>
      obtain ⟨m, hm, pre, post, hsplit, hpre, hpost⟩ :=
        pyMax_spec (t0, get_column_similarity s t0)
          (ts.map fun u => (u, get_column_similarity s u))
      have hsplit' : (t0 :: ts).map (fun u => (u, get_column_similarity s u)) =
          pre ++ m :: post := by
        simpa using hsplit
      rw [List.map_eq_append_iff] at hsplit'
      obtain ⟨l1, l2, hl, hm1, hm2⟩ := hsplit'
      rw [List.map_eq_cons_iff] at hm2
      obtain ⟨u, l2', hl2, hfu, hmap⟩ := hm2
      refine ⟨u, ?_, ?_, l1, l2', ?_, ?_, ?_⟩
      · rw [hl, hl2]
        exact List.mem_append_right _ (List.mem_cons_self u l2')
      · rw [List.map_cons, hm, ← hfu]
      · rw [hl, hl2]
      · intro v hv
        have hv' : (v, get_column_similarity s v) ∈ pre := by
          rw [← hm1]
          exact List.mem_map_of_mem _ hv
        have := hpre _ hv'
        rw [← hfu] at this
        exact this
      · intro v hv
        have hv' : (v, get_column_similarity s v) ∈ post := by
          rw [← hmap]
          exact List.mem_map_of_mem _ hv
        have := hpost _ hv'
        rw [← hfu] at this
        exact this

/-- With at least one target column the mapping loop never raises. -/
theorem autoMapGo_ok (tcs : List String) (h : tcs ≠ []) :
    ∀ scs acc, ∃ m, autoMapGo tcs scs acc = .ok m := by
  intro scs
  induction scs with
  | nil => intro acc; exact ⟨acc, rfl⟩
  | cons s rest ih =>
      intro acc
      obtain ⟨t, _, hok, _⟩ := pyMax_firstMax s tcs h
      simp only [autoMapGo, hok]
      exact ih _

/-- Membership in the accumulated mapping: a pair was already accumulated,
or its source column occurs in the remaining list and its target is the
first maximal target with similarity above the threshold. -/
theorem autoMapGo_mem (tcs : List String) (h : tcs ≠ []) :
    ∀ scs acc m, autoMapGo tcs scs acc = .ok m →
      ∀ q : String × String,
        q ∈ m ↔ q ∈ acc ∨ ∃ s ∈ scs, q.1 = s ∧ firstMaxTarget s tcs q.2 ∧
          get_column_similarity s q.2 > 3 / 5 := by
  intro scs
  induction scs with
  | nil =>
      intro acc m hm q
      simp only [autoMapGo, Except.ok.injEq] at hm
      subst hm
      simp
  | cons s rest ih =>
      intro acc m hm q
      obtain ⟨t, htmem, hok, hfm⟩ := pyMax_firstMax s tcs h
      simp only [autoMapGo, hok] at hm
      have hiff := ih _ m hm q
      have hq : (q.1 = s ∧ firstMaxTarget s tcs q.2 ∧
          get_column_similarity s q.2 > 3 / 5) ↔
          (q = (s, t) ∧ get_column_similarity s t > 3 / 5) := by
        constructor
        · rintro ⟨h1, h2, h3⟩
          have ht2 : q.2 = t := firstMaxTarget_unique h2 hfm
          refine ⟨?_, ?_⟩
          · rw [← h1, ← ht2]
          · rw [← ht2]; exact h3
        · rintro ⟨h1, h2⟩
          subst h1
          exact ⟨rfl, hfm, h2⟩
      rw [hiff]
      by_cases hth : get_column_similarity s t > 3 / 5
      · rw [if_pos hth] at hiff ⊢
        simp only [List.mem_append, List.mem_singleton]
        constructor
        · rintro ((hacc | rfl) | ⟨s', hs', hφ⟩)
          · exact .inl hacc
          · exact .inr ⟨s, List.mem_cons_self s rest, hq.mpr ⟨rfl, hth⟩⟩
          · exact .inr ⟨s', List.mem_cons_of_mem s hs', hφ⟩
        · rintro (hacc | ⟨s', hs', hφ⟩)
          · exact .inl (.inl hacc)
          · rcases List.mem_cons.mp hs' with rfl | hs''
            · exact .inl (.inr (hq.mp hφ).1)
            · exact .inr ⟨s', hs'', hφ⟩
      · rw [if_neg hth] at hiff ⊢
        constructor
        · rintro (hacc | ⟨s', hs', hφ⟩)
          · exact .inl hacc
          · exact .inr ⟨s', List.mem_cons_of_mem s hs', hφ⟩
        · rintro (hacc | ⟨s', hs', hφ⟩)
          · exact .inl hacc
          · rcases List.mem_cons.mp hs' with rfl | hs''
            · exact absurd (hq.mp hφ).2 hth
            · exact .inr ⟨s', hs'', hφ⟩

set_option maxRecDepth 8000 in
/-- C5: the auto mapper computes a case-insensitive similarity ratio in
`[0, 1]` for every source/target pair, picks the first maximal target, and
keeps the pair exactly when that maximum exceeds the 0.6 threshold; on the
concrete inputs, `"full_name"` maps to `"name"` and `"zzz_unrelated"` maps
to nothing. -/
theorem claim_C5_auto_mapper :
    (∀ s t : String, 0 ≤ get_column_similarity s t ∧ get_column_similarity s t ≤ 1) ∧
    (∀ source_cols target_cols : List String, target_cols ≠ [] →
        ∃ m, auto_map_columns source_cols target_cols = .ok m ∧
          ∀ s t, (s, t) ∈ m ↔
            s ∈ source_cols ∧ firstMaxTarget s target_cols t ∧
              get_column_similarity s t > 3 / 5) ∧
    auto_map_columns ["full_name"] ["name", "salary"] = .ok [("full_name", "name")] ∧
    auto_map_columns ["zzz_unrelated"] ["name", "salary"] = .ok [] := by
  have h1 : get_column_similarity "full_name" "name" = 8 / 13 := by
    have hm : matchingTotal ("full_name".data.map Char.toLower)
        ("name".data.map Char.toLower) = 4 := by decide
    have hl1 : ("full_name".data.map Char.toLower).length = 9 := by decide
    have hl2 : ("name".data.map Char.toLower).length = 4 := by decide
    unfold get_column_similarity smRatio
    rw [hm, hl1, hl2]
    norm_num
  have h2 : get_column_similarity "full_name" "salary" = 4 / 15 := by
    have hm : matchingTotal ("full_name".data.map Char.toLower)
        ("salary".data.map Char.toLower) = 2 := by decide
    have hl1 : ("full_name".data.map Char.toLower).length = 9 := by decide
    have hl2 : ("salary".data.map Char.toLower).length = 6 := by decide
    unfold get_column_similarity smRatio
    rw [hm, hl1, hl2]
    norm_num
  have h3 : get_column_similarity "zzz_unrelated" "name" = 4 / 17 := by
    have hm : matchingTotal ("zzz_unrelated".data.map Char.toLower)
        ("name".data.map Char.toLower) = 2 := by decide
    have hl1 : ("zzz_unrelated".data.map Char.toLower).length = 13 := by decide
    have hl2 : ("name".data.map Char.toLower).length = 4 := by decide
    unfold get_column_similarity smRatio
    rw [hm, hl1, hl2]
    norm_num
  have h4 : get_column_similarity "zzz_unrelated" "salary" = 4 / 19 := by
    have hm : matchingTotal ("zzz_unrelated".data.map Char.toLower)
        ("salary".data.map Char.toLower) = 2 := by decide
    have hl1 : ("zzz_unrelated".data.map Char.toLower).length = 13 := by decide
    have hl2 : ("salary".data.map Char.toLower).length = 6 := by decide
    unfold get_column_similarity smRatio
    rw [hm, hl1, hl2]
    norm_num
  refine ⟨get_column_similarity_bounds, ?_, ?_, ?_⟩
  · intro source_cols target_cols htc
    obtain ⟨m, hm⟩ := autoMapGo_ok target_cols htc source_cols []
    refine ⟨m, hm, ?_⟩
    intro s t
    have := autoMapGo_mem target_cols htc source_cols [] m hm (s, t)
    rw [this]
    simp only [List.not_mem_nil, false_or]
    constructor
    · rintro ⟨s', hs', h1', h2', h3'⟩
      have hss : s = s' := h1'
      subst hss
      exact ⟨hs', h2', h3'⟩
    · rintro ⟨hs, h2', h3'⟩
      exact ⟨s, hs, rfl, h2', h3'⟩
  · unfold auto_map_columns
    simp only [autoMapGo, pyMaxBySnd, List.map_cons, List.map_nil, h1, h2, List.foldl]
    norm_num
  · unfold auto_map_columns
    simp only [autoMapGo, pyMaxBySnd, List.map_cons, List.map_nil, h3, h4, List.foldl]
    norm_num

/-- Witness for C5 at a concrete input. -/
theorem claim_C5_witness :
    ∃ m, auto_map_columns ["full_name"] ["name", "salary"] = .ok m ∧
      ∀ s t, (s, t) ∈ m ↔
        s ∈ ["full_name"] ∧ firstMaxTarget s ["name", "salary"] t ∧
          get_column_similarity s t > 3 / 5 :=
  claim_C5_auto_mapper.2.1 ["full_name"] ["name", "salary"] (by decide)

/-!  Helper lemmas for the comparator claims (C1-C4). -/

/-- A successful comparison determines each check from the transformed
frames; the business-rule check is whatever `businessRules` returned. -/
theorem perform_comparison_ok {source target : DataFrame}
    {mapping : List (String × String)} {ignored : List String} {res : Results}
    (h : perform_comparison source target mapping ignored = .ok res) :
    ∃ br, businessRules (srcTransformed source mapping ignored)
        (tgtTransformed target ignored) = .ok br ∧
      res = ⟨rowCountCheck (srcTransformed source mapping ignored)
               (tgtTransformed target ignored),
             dupCheck (srcTransformed source mapping ignored)
               (tgtTransformed target ignored),
             nullCheck (srcTransformed source mapping ignored)
               (tgtTransformed target ignored),
             br, ⟨false, []⟩,
             dataQuality (srcTransformed source mapping ignored)
               (tgtTransformed target ignored)⟩ := by
  unfold perform_comparison performComparisonCore at h
  cases hbr : businessRules (srcTransformed source mapping ignored)
      (tgtTransformed target ignored) with
  | error e => simp only [hbr] at h; exact Except.noConfusion h
  | ok br =>
      simp only [hbr, Except.ok.injEq] at h
      exact ⟨br, rfl, h.symm⟩

/-- A name in the common set belongs to both frames. -/
theorem mem_commonNames {src tgt : DataFrame} {c : String} :
    c ∈ commonNames src tgt ↔ c ∈ src.names ∧ c ∈ tgt.names := by
  unfold commonNames
  rw [List.mem_filter]
  simp

/-- A present column name is found by column selection. -/
theorem getColumn_isSome_of_mem {df : DataFrame} {c : String} (h : c ∈ df.names) :
    ∃ d cells, getColumn df c = some (d, cells) := by
  unfold getColumn
  cases hf : df.cols.findIdx? (fun p => p.1 = c) with
  | some i => exact ⟨_, _, rfl⟩
  | none =>
      rw [List.findIdx?_eq_none_iff] at hf
      unfold DataFrame.names at h
      obtain ⟨p, hp, rfl⟩ := List.mem_map.mp h
      have := hf p hp
      simp at this

/-- Selected cells have one entry per row. -/
theorem getColumn_cells_length {df : DataFrame} {c : String} {d : Dtype}
    {cells : List Cell} (h : getColumn df c = some (d, cells)) :
    cells.length = df.rows.length := by
  unfold getColumn at h
  cases hf : df.cols.findIdx? (fun p => p.1 = c) with
  | none => rw [hf] at h; exact Option.noConfusion h
  | some i =>
      rw [hf] at h
      simp only [Option.some.injEq, Prod.mk.injEq] at h
      rw [← h.2]
      exact List.length_map _ _

/-- The dtype of a selected column occurs among the frame's dtypes (or is
the `object` fallback). -/
theorem getColumn_dtype_cases {df : DataFrame} {c : String} {d : Dtype}
    {cells : List Cell} (h : getColumn df c = some (d, cells)) :
    d = .object ∨ ∃ p ∈ df.cols, p.2 = d := by
  unfold getColumn at h
  cases hf : df.cols.findIdx? (fun p => p.1 = c) with
  | none => rw [hf] at h; exact Option.noConfusion h
  | some i =>
      rw [hf] at h
      simp only [Option.some.injEq, Prod.mk.injEq] at h
      cases hg : df.cols.get? i with
      | none =>
          left
          rw [← h.1, hg]
          rfl
      | some p =>
          right
          refine ⟨p, List.get?_mem hg, ?_⟩
          rw [← h.1, hg]
          rfl

/-- Sum series length is the aligned length of its two columns. -/
theorem seriesAdd_ok_length {da db : Dtype} :
    ∀ {av bv sums : List Cell}, seriesAdd da db av bv = .ok sums →
      sums.length = min av.length bv.length := by
  intro av
  induction av with
  | nil =>
      intro bv sums h
      simp only [seriesAdd, Except.ok.injEq] at h
      simp [← h]
  | cons x xs ih =>
      intro bv sums h
      cases bv with
      | nil =>
          simp only [seriesAdd, Except.ok.injEq] at h
          simp [← h]
      | cons y ys =>
          simp only [seriesAdd] at h
          cases hca : cellAdd da db x y with
          | error e => rw [hca] at h; exact Except.noConfusion h
          | ok c =>
              rw [hca] at h
              cases hsa : seriesAdd da db xs ys with
              | error e => rw [hsa] at h; exact Except.noConfusion h
              | ok cs =>
                  rw [hsa] at h
                  simp only [Except.ok.injEq] at h
                  rw [← h]
                  simp only [List.length_cons, ih hsa]
                  omega

/-- Each sum entry comes from adding the aligned column entries. -/
theorem seriesAdd_ok_get {da db : Dtype} :
    ∀ {av bv sums : List Cell}, seriesAdd da db av bv = .ok sums →
      ∀ k s, sums.get? k = some s →
        ∃ a b, av.get? k = some a ∧ bv.get? k = some b ∧
          cellAdd da db a b = .ok s := by
  intro av
  induction av with
  | nil =>
      intro bv sums h k s hk
      simp only [seriesAdd, Except.ok.injEq] at h
      rw [← h] at hk
      simp at hk
  | cons x xs ih =>
      intro bv sums h k s hk
      cases bv with
      | nil =>
          simp only [seriesAdd, Except.ok.injEq] at h
          rw [← h] at hk
          simp at hk
      | cons y ys =>
          simp only [seriesAdd] at h
          cases hca : cellAdd da db x y with
          | error e => rw [hca] at h; exact Except.noConfusion h
          | ok c =>
              rw [hca] at h
              cases hsa : seriesAdd da db xs ys with
              | error e => rw [hsa] at h; exact Except.noConfusion h
              | ok cs =>
                  rw [hsa] at h
                  simp only [Except.ok.injEq] at h
                  rw [← h] at hk
                  cases k with
                  | zero =>
                      simp only [List.get?] at hk
                      refine ⟨x, y, rfl, rfl, ?_⟩
                      rw [hca]
                      exact congrArg _ (Option.some.inj hk)
                  | succ k =>
                      simp only [List.get?] at hk
                      obtain ⟨a, b, ha, hb, hab⟩ := ih hsa k s hk
                      exact ⟨a, b, ha, hb, hab⟩

/-- The elementwise comparison list is the per-row rule check, row by row. -/
theorem zip_rowOk {da db : Dtype} {av bv cv sums : List Cell}
    (hs : seriesAdd da db av bv = .ok sums) (hl : sums.length = cv.length) :
    List.zipWith eqCell sums cv =
      (List.range cv.length).map (fun k => rowOk da db av bv cv k) := by
  apply List.ext_getElem?
  intro k
  by_cases hk : k < cv.length
  · have hks : k < sums.length := by omega
    have hsome : sums.get? k = some (sums.get ⟨k, hks⟩) := List.get?_eq_get hks
    have hcsome : cv.get? k = some (cv.get ⟨k, hk⟩) := List.get?_eq_get hk
    obtain ⟨a, b, ha, hb, hab⟩ := seriesAdd_ok_get hs k _ hsome
    have hrow : rowOk da db av bv cv k = eqCell (sums.get ⟨k, hks⟩) (cv.get ⟨k, hk⟩) := by
      unfold rowOk
      rw [ha, hb, hcsome]
      simp only [hab]
    rw [List.getElem?_zipWith]
    rw [← List.get?_eq_getElem?, ← List.get?_eq_getElem?, hsome, hcsome]
    rw [List.getElem?_map, List.getElem?_range hk]
    simp only [Option.map_some']
    rw [hrow]
  · have h1 : (List.zipWith eqCell sums cv)[k]? = none := by
      rw [List.getElem?_eq_none_iff, List.length_zipWith]
      omega
    have h2 : ((List.range cv.length).map (fun k => rowOk da db av bv cv k))[k]? = none := by
      rw [List.getElem?_eq_none_iff, List.length_map, List.length_range]
      omega
    rw [h1, h2]

/-- Anatomy of a successful business-rule check: the default state exactly
when the guard fails; otherwise the pass flag is the every-row rule and the
details carry the pass flag and the mismatching-row count. -/
theorem businessRules_ok_spec {src tgt : DataFrame} {br : CheckBR}
    (h : businessRules src tgt = .ok br) :
    (¬brCond src tgt → br = ⟨false, none⟩) ∧
    (brCond src tgt → ∃ da av db bv dc cv,
      getColumn src "Column A" = some (da, av) ∧
      getColumn src "Column B" = some (db, bv) ∧
      getColumn tgt "Column C" = some (dc, cv) ∧
      (br.passed = true ↔ ∀ k, k < cv.length → rowOk da db av bv cv k = true) ∧
      br.details = some (br.passed, mismatchCount da db av bv cv)) := by
  unfold businessRules at h
  by_cases hc : brCond src tgt
  · rw [if_pos hc] at h
    refine ⟨fun hn => absurd hc hn, fun _ => ?_⟩
    obtain ⟨hA, hB, hC⟩ := hc
    obtain ⟨hAs, _⟩ := mem_commonNames.mp hA
    obtain ⟨hBs, _⟩ := mem_commonNames.mp hB
    obtain ⟨_, hCt⟩ := mem_commonNames.mp hC
    obtain ⟨da, av, hga⟩ := getColumn_isSome_of_mem hAs
    obtain ⟨db, bv, hgb⟩ := getColumn_isSome_of_mem hBs
    obtain ⟨dc, cv, hgc⟩ := getColumn_isSome_of_mem hCt
    rw [hga, hgb, hgc] at h
    dsimp only at h
    cases hsa : seriesAdd da db av bv with
    | error e => rw [hsa] at h; dsimp only at h; exact Except.noConfusion h
    | ok sums =>
        rw [hsa] at h
        dsimp only at h
        by_cases hlen : sums.length = cv.length
        · rw [if_pos hlen] at h
          simp only [Except.ok.injEq] at h
          refine ⟨da, av, db, bv, dc, cv, hga, hgb, hgc, ?_, ?_⟩
          · rw [← h]
            simp only
            rw [zip_rowOk hsa hlen]
            simp only [List.all_eq_true, id_eq]
            constructor
            · intro hall k hk
              exact hall _ (List.mem_map_of_mem _ (List.mem_range.mpr hk))
            · intro hp x hx
              obtain ⟨k, hk, rfl⟩ := List.mem_map.mp hx
              exact hp k (List.mem_range.mp hk)
          · rw [← h]
            simp only
            rw [zip_rowOk hsa hlen, List.filter_map, List.length_map]
            rfl
        · rw [if_neg hlen] at h
          exact Except.noConfusion h
  · rw [if_neg hc] at h
    simp only [Except.ok.injEq] at h
    exact ⟨fun _ => h.symm, fun hcc => absurd hcc hc⟩

/-- C2: in every returned comparison result, the business-rule check is
populated exactly when `Column A`, `Column B`, `Column C` are common to
both transformed frames; when populated it passes iff every row satisfies
`A + B = C`, and its details carry the pass flag and the number of
mismatching rows; otherwise it stays at its default not-passed, empty
state. -/
theorem claim_C2_business_rules :
    ∀ source target mapping ignored res,
      perform_comparison source target mapping ignored = .ok res →
      (¬brCond (srcTransformed source mapping ignored) (tgtTransformed target ignored) →
          res.business_rules = ⟨false, none⟩) ∧
      (brCond (srcTransformed source mapping ignored) (tgtTransformed target ignored) →
          ∃ da av db bv dc cv,
            getColumn (srcTransformed source mapping ignored) "Column A" = some (da, av) ∧
            getColumn (srcTransformed source mapping ignored) "Column B" = some (db, bv) ∧
            getColumn (tgtTransformed target ignored) "Column C" = some (dc, cv) ∧
            (res.business_rules.passed = true ↔
              ∀ k, k < cv.length → rowOk da db av bv cv k = true) ∧
            res.business_rules.details =
              some (res.business_rules.passed, mismatchCount da db av bv cv)) ∧
      (res.business_rules.details.isSome ↔
        brCond (srcTransformed source mapping ignored) (tgtTransformed target ignored)) := by
  intro source target mapping ignored res h
  obtain ⟨br, hbr, hres⟩ := perform_comparison_ok h
  have hspec := businessRules_ok_spec hbr
  have hfield : res.business_rules = br := by rw [hres]
  rw [hfield]
  refine ⟨hspec.1, hspec.2, ?_⟩
  by_cases hc : brCond (srcTransformed source mapping ignored) (tgtTransformed target ignored)
  · obtain ⟨da, av, db, bv, dc, cv, _, _, _, _, hdet⟩ := hspec.2 hc
    rw [hdet]
    simp [hc]
  · rw [hspec.1 hc]
    simp [hc]

/-- Witness for C2 at a concrete input. -/
theorem claim_C2_witness :
    ∃ res, perform_comparison
        ⟨[("Column A", .int64), ("Column B", .int64), ("Column C", .int64)],
         [[some (.int 1), some (.int 2), some (.int 3)]]⟩
        ⟨[("Column A", .int64), ("Column B", .int64), ("Column C", .int64)],
         [[some (.int 1), some (.int 2), some (.int 3)]]⟩ [] [] = .ok res ∧
      res.business_rules.details.isSome = true :=
  ⟨⟨⟨true, 1, 1, 0⟩, ⟨true, 0, 0⟩,
    ⟨true, [("Column A", 0), ("Column B", 0), ("Column C", 0)],
     [("Column A", 0), ("Column B", 0), ("Column C", 0)]⟩,
    ⟨true, some (true, 0)⟩, ⟨false, []⟩,
    ⟨true, [⟨"expect_table_row_count_to_be_between", true⟩,
            ⟨"expect_table_columns_to_match_ordered_list", true⟩,
            ⟨"expect_table_row_count_to_be_between", true⟩,
            ⟨"expect_table_columns_to_match_ordered_list", true⟩,
            ⟨"expect_column_values_to_be_of_type", true⟩,
            ⟨"expect_column_values_to_be_of_type", true⟩,
            ⟨"expect_column_values_to_be_of_type", true⟩,
            ⟨"expect_column_values_to_be_of_type", true⟩,
            ⟨"expect_column_values_to_be_of_type", true⟩,
            ⟨"expect_column_values_to_be_of_type", true⟩]⟩⟩,
   rfl,
   ((claim_C2_business_rules
      ⟨[("Column A", .int64), ("Column B", .int64), ("Column C", .int64)],
       [[some (.int 1), some (.int 2), some (.int 3)]]⟩
      ⟨[("Column A", .int64), ("Column B", .int64), ("Column C", .int64)],
       [[some (.int 1), some (.int 2), some (.int 3)]]⟩
      [] [] _ rfl).2.2).mpr (by decide)⟩

/-- Renaming with an empty mapping changes nothing. -/
theorem renameDF_nil (df : DataFrame) : renameDF df [] = df := by
  unfold renameDF
  cases df with
  | mk cols rows =>
      simp only [DataFrame.mk.injEq, and_true]
      have : ∀ c : String × Dtype,
          (((List.lookup c.1 ([] : List (String × String))).getD c.1, c.2)) = c := by
        intro c
        simp
      rw [List.map_congr_left (fun c _ => this c)]
      simp

/-- An all-true mask keeps the first `n` entries of a row. -/
theorem maskRow_all_true {α : Type} (l : List α) :
    ∀ r : List Cell, maskRow (l.map fun _ => true) r = r.take l.length := by
  induction l with
  | nil => intro r; rfl
  | cons x l ih =>
      intro r
      cases r with
      | nil => rfl
      | cons c r =>
          have hstep : maskRow ((x :: l).map fun _ => true) (c :: r) =
              c :: maskRow (l.map fun _ => true) r := by
            unfold maskRow
            simp
          rw [hstep, ih r]
          rfl

/-- Dropping an empty column list leaves a well-formed frame unchanged. -/
theorem dropColsDF_nil {df : DataFrame} (h : df.WF) : dropColsDF df [] = df := by
  obtain ⟨cols, rows⟩ := df
  unfold dropColsDF
  simp only [DataFrame.mk.injEq]
  constructor
  · have : ∀ c ∈ cols, (!(List.contains ([] : List String) c.1)) = true := by
      intro c _; rfl
    rw [List.filter_eq_self.mpr this]
  · have hkeep : (cols.map fun c => !(List.contains ([] : List String) c.1)) =
        cols.map fun _ => true := rfl
    rw [hkeep]
    have hrect : ∀ r ∈ rows, r.length = cols.length := h.2
    have hmask : ∀ r ∈ rows, maskRow (cols.map fun _ => true) r = r := by
      intro r hr
      rw [maskRow_all_true, ← hrect r hr, List.take_length]
    rw [List.map_congr_left hmask]
    simp

/-- The source transform with empty mapping and exclusions is the identity
on well-formed frames. -/
theorem srcTransformed_nil {df : DataFrame} (h : df.WF) :
    srcTransformed df [] [] = df := by
  unfold srcTransformed
  rw [renameDF_nil, dropColsDF_nil h]

/-- The target transform with empty exclusions is the identity on
well-formed frames. -/
theorem tgtTransformed_nil {df : DataFrame} (h : df.WF) :
    tgtTransformed df [] = df := by
  unfold tgtTransformed
  exact dropColsDF_nil h

/-- Looking a key up in an association list with distinct keys finds the
member's value. -/
theorem lookup_of_mem_nodup {A : List (String × Nat)}
    (h : (A.map Prod.fst).Nodup) {k : String} {v : Nat} (hm : (k, v) ∈ A) :
    A.lookup k = some v := by
  induction A with
  | nil => exact absurd hm (List.not_mem_nil _)
  | cons p rest ih =>
      rw [List.map_cons, List.nodup_cons] at h
      rcases List.mem_cons.mp hm with rfl | hm'
      · simp [List.lookup_cons]
      · have hk : k ≠ p.1 := by
          intro hkp
          exact h.1 (hkp ▸ List.mem_map_of_mem Prod.fst hm')
        rw [List.lookup_cons, beq_false_of_ne hk]
        exact ih h.2 hm'

/-- A found key's pair is a member. -/
theorem mem_of_lookup_eq_some {A : List (String × Nat)} {k : String} {v : Nat}
    (h : A.lookup k = some v) : (k, v) ∈ A := by
  induction A with
  | nil => simp at h
  | cons p rest ih =>
      rw [List.lookup_cons] at h
      by_cases hk : k = p.1
      · simp only [hk, beq_self_eq_true] at h
        cases p with
        | mk k' v' =>
            simp only at h
            injection h with h'
            rw [hk, h']
            exact List.mem_cons_self _ _
      · have : (k == p.1) = false := beq_false_of_ne hk
        rw [this] at h
        exact List.mem_cons_of_mem _ (ih h)

/-- A key is found exactly when it occurs among the keys. -/
theorem lookup_isSome_iff {A : List (String × Nat)} {k : String} :
    (A.lookup k).isSome = true ↔ k ∈ A.map Prod.fst := by
  induction A with
  | nil => simp [List.lookup]
  | cons p rest ih =>
      rw [List.lookup_cons, List.map_cons]
      by_cases hk : k = p.1
      · simp [hk]
      · have : (k == p.1) = false := beq_false_of_ne hk
        rw [this]
        simp only [List.mem_cons]
        rw [ih]
        constructor
        · exact fun h => .inr h
        · rintro (h | h)
          · exact absurd h hk
          · exact h

/-- Python dict equality of two association lists with distinct keys is
lookup equality at every key. -/
theorem dictEqB_iff {A B : List (String × Nat)}
    (hA : (A.map Prod.fst).Nodup) (hB : (B.map Prod.fst).Nodup) :
    dictEqB A B = true ↔ ∀ c, A.lookup c = B.lookup c := by
  unfold dictEqB
  rw [Bool.and_eq_true, List.all_eq_true, List.all_eq_true]
  constructor
  · rintro ⟨h1, h2⟩ c
    cases hc : A.lookup c with
    | some v =>
        have := h1 (c, v) (mem_of_lookup_eq_some hc)
        simp only [decide_eq_true_eq] at this
        exact this.symm
    | none =>
        cases hbc : B.lookup c with
        | none => rfl
        | some w =>
            have := h2 (c, w) (mem_of_lookup_eq_some hbc)
            simp only [decide_eq_true_eq] at this
            rw [this] at hc
            exact Option.noConfusion hc
  · intro h
    constructor
    · intro p hp
      have : A.lookup p.1 = some p.2 := lookup_of_mem_nodup hA (by
        cases p; exact hp)
      simp [← h p.1, this]
    · intro p hp
      have : B.lookup p.1 = some p.2 := lookup_of_mem_nodup hB (by
        cases p; exact hp)
      simp [h p.1, this]

/-- The null-count dictionary is keyed by the column names, in order. -/
theorem nullCounts_keys (df : DataFrame) :
    (nullCounts df).map Prod.fst = df.names := by
  unfold nullCounts DataFrame.names
  rw [List.map_map]
  have : ∀ (l : List (String × Dtype)) (i : Nat),
      (l.enumFrom i).map ((fun p : Nat × (String × Dtype) => p.2.1) ) = l.map Prod.fst := by
    intro l
    induction l with
    | nil => intro i; rfl
    | cons x l ih =>
        intro i
        simp only [List.enumFrom_cons, List.map_cons, List.map]
        rw [ih (i + 1)]
  have h2 := this df.cols 0
  unfold List.enum
  convert h2 using 2

/-- On an equal pair of frames with at least one row and no float-typed
column, every data-quality expectation succeeds. -/
theorem dataQuality_self {df : DataFrame} (h1 : 1 ≤ df.rows.length)
    (h2 : ∀ p ∈ df.cols, p.2 ≠ Dtype.float64) :
    (dataQuality df df).passed = true := by
  unfold dataQuality
  simp only
  rw [List.all_eq_true]
  intro e he
  rw [List.mem_append] at he
  rcases he with hb | hc
  · simp only [List.mem_cons, List.not_mem_nil, or_false] at hb
    rcases hb with rfl | rfl | rfl | rfl
    · simpa using h1
    · rfl
    · simpa using h1
    · rfl
  · rw [List.mem_flatMap] at hc
    obtain ⟨c, hcmem, hce⟩ := hc
    cases hg : getColumn df c with
    | none => rw [hg] at hce; simp at hce
    | some dc =>
        obtain ⟨d, cells⟩ := dc
        rw [hg] at hce
        dsimp only at hce
        have hdne : d ≠ .float64 := by
          rcases getColumn_dtype_cases hg with rfl | ⟨p, hp, hpd⟩
          · simp
          · rw [← hpd]; exact h2 p hp
        by_cases hdi : d = .int64 ∨ d = .float64
        · rw [if_pos hdi] at hce
          have hd : d = .int64 := by
            rcases hdi with h | h
            · exact h
            · exact absurd h hdne
          subst hd
          have hok : colTypeOk .int64 cells "int64" = true := by
            simp [colTypeOk, Dtype.name]
          simp only [List.mem_cons, List.not_mem_nil, or_false] at hce
          rcases hce with rfl | rfl
          · exact hok
          · exact hok
        · rw [if_neg hdi] at hce
          have hd : d = .object := by
            cases d
            · exact absurd (Or.inl rfl) hdi
            · exact absurd (Or.inr rfl) hdi
            · rfl
          subst hd
          have hok : colTypeOk .object cells "object" = true := by
            simp [colTypeOk, Dtype.name]
          simp only [List.mem_cons, List.not_mem_nil, or_false] at hce
          rcases hce with rfl | rfl
          · exact hok
          · exact hok

/-- C1 (amended): for equal well-formed input tables with at least one row
and no float64-typed column, with empty rename mapping and exclusion list,
a returned result passes the row-count, duplicate, null-value and
data-quality checks; the column-mapping check reports not-passed; and the
business-rules check passes exactly when the three rule columns are present
and every row satisfies `A + B = C` (so it reports not-passed whenever the
rule columns are absent). -/
theorem claim_C1_amended :
    ∀ df res, df.WF → 1 ≤ df.rows.length →
      (∀ p ∈ df.cols, p.2 ≠ Dtype.float64) →
      perform_comparison df df [] [] = .ok res →
      res.row_count.passed = true ∧ res.duplicates.passed = true ∧
      res.null_values.passed = true ∧ res.data_quality.passed = true ∧
      res.column_mapping.passed = false ∧
      (res.business_rules.passed = true ↔ brPasses df df) := by
  intro df res hWF hlen hfl h
  obtain ⟨br, hbr, hres⟩ := perform_comparison_ok h
  rw [srcTransformed_nil hWF, tgtTransformed_nil hWF] at hbr hres
  subst hres
  have hkeys : ((nullCounts df).map Prod.fst).Nodup := by
    rw [nullCounts_keys]
    exact hWF.1
  refine ⟨?_, ?_, ?_, ?_, rfl, ?_⟩
  · simp [rowCountCheck]
  · simp [dupCheck]
  · simp only [nullCheck]
    rw [dictEqB_iff hkeys hkeys]
    intro c
    rfl
  · exact dataQuality_self hlen hfl
  · have hspec := businessRules_ok_spec hbr
    by_cases hc : brCond df df
    · obtain ⟨da, av, db, bv, dc, cv, hga, hgb, hgc, hiff, _⟩ := hspec.2 hc
      simp only
      constructor
      · intro hp
        refine ⟨hc, ?_⟩
        intro da' av' db' bv' dc' cv' hga' hgb' hgc' k hk
        have e1 := Option.some.inj (hga.symm.trans hga')
        have e2 := Option.some.inj (hgb.symm.trans hgb')
        have e3 := Option.some.inj (hgc.symm.trans hgc')
        rw [Prod.mk.injEq] at e1 e2 e3
        rw [← e1.1, ← e1.2, ← e2.1, ← e2.2, ← e3.2]
        rw [← e3.2] at hk
        exact hiff.mp hp k hk
      · rintro ⟨_, hall⟩
        exact hiff.mpr (hall da av db bv dc cv hga hgb hgc)
    · rw [hspec.1 hc]
      simp only
      constructor
      · intro hfalse
        exact absurd hfalse (by simp)
      · rintro ⟨hcc, _⟩
        exact absurd hcc hc

/-- Counterexample to C1 as stated: two equal one-column tables (no
`Column A`/`B`/`C`) yield a result whose business_rules check is
not-passed, so not all checks besides column_mapping pass. -/
theorem claim_C1_counterexample :
    ∃ res, perform_comparison ⟨[("a", .int64)], [[some (.int 1)]]⟩
        ⟨[("a", .int64)], [[some (.int 1)]]⟩ [] [] = .ok res ∧
      res.business_rules.passed = false ∧ res.row_count.passed = true :=
  ⟨⟨⟨true, 1, 1, 0⟩, ⟨true, 0, 0⟩, ⟨true, [("a", 0)], [("a", 0)]⟩,
    ⟨false, none⟩, ⟨false, []⟩,
    ⟨true, [⟨"expect_table_row_count_to_be_between", true⟩,
            ⟨"expect_table_columns_to_match_ordered_list", true⟩,
            ⟨"expect_table_row_count_to_be_between", true⟩,
            ⟨"expect_table_columns_to_match_ordered_list", true⟩,
            ⟨"expect_column_values_to_be_of_type", true⟩,
            ⟨"expect_column_values_to_be_of_type", true⟩]⟩⟩,
   rfl, rfl, rfl⟩

/-- Witness for the amended C1 at a concrete input. -/
theorem claim_C1_witness :
    ∃ res, perform_comparison ⟨[("b", .int64)], [[some (.int 2)]]⟩
        ⟨[("b", .int64)], [[some (.int 2)]]⟩ [] [] = .ok res ∧
      res.row_count.passed = true ∧ res.duplicates.passed = true ∧
      res.null_values.passed = true ∧ res.data_quality.passed = true ∧
      res.column_mapping.passed = false ∧
      (res.business_rules.passed = true ↔
        brPasses ⟨[("b", .int64)], [[some (.int 2)]]⟩
          ⟨[("b", .int64)], [[some (.int 2)]]⟩) :=
  ⟨⟨⟨true, 1, 1, 0⟩, ⟨true, 0, 0⟩, ⟨true, [("b", 0)], [("b", 0)]⟩,
    ⟨false, none⟩, ⟨false, []⟩,
    ⟨true, [⟨"expect_table_row_count_to_be_between", true⟩,
            ⟨"expect_table_columns_to_match_ordered_list", true⟩,
            ⟨"expect_table_row_count_to_be_between", true⟩,
            ⟨"expect_table_columns_to_match_ordered_list", true⟩,
            ⟨"expect_column_values_to_be_of_type", true⟩,
            ⟨"expect_column_values_to_be_of_type", true⟩]⟩⟩,
   rfl,
   claim_C1_amended ⟨[("b", .int64)], [[some (.int 2)]]⟩ _
     (by decide) (by decide) (by decide) rfl⟩

/-!  Claim C4: the duplicate check. -/

/-- Appending a row adds one marked duplicate exactly when the row already
occurs (among the seen rows or the list). -/
theorem dupCountAux_append (r : List Cell) :
    ∀ (l seen : List (List Cell)),
      dupCountAux seen (l ++ [r]) =
        dupCountAux seen l + (if r ∈ seen ∨ r ∈ l then 1 else 0) := by
  intro l
  induction l with
  | nil =>
      intro seen
      simp [dupCountAux]
  | cons x l ih =>
      intro seen
      simp only [List.cons_append, dupCountAux, List.append_eq]
      rw [ih (x :: seen)]
      have hiff : (r ∈ x :: seen ∨ r ∈ l) ↔ (r ∈ seen ∨ r ∈ x :: l) := by
        simp only [List.mem_cons]
        tauto
      rw [if_congr hiff rfl rfl]
      omega

/-- Appending a row already in the list increments the duplicate count;
appending a new row leaves it unchanged. -/
theorem dupCount_append (rows : List (List Cell)) (r : List Cell) :
    dupCount (rows ++ [r]) = dupCount rows + (if r ∈ rows then 1 else 0) := by
  unfold dupCount
  rw [dupCountAux_append]
  simp

/-- A row of a well-formed frame keeps the frame well-formed when
appended. -/
theorem appendRow_WF {df : DataFrame} {r : List Cell} (h : df.WF)
    (hr : r ∈ df.rows) : (appendRow df r).WF := by
  refine ⟨h.1, ?_⟩
  intro q hq
  rcases List.mem_append.mp hq with hq' | hq'
  · exact h.2 q hq'
  · rw [List.mem_singleton.mp hq']
    exact h.2 r hr

/-- C4: a returned result's duplicate check passes exactly when the counts
of exactly-duplicated rows agree; appending a row present on both sides to
both sides keeps it passing, while appending such a row to only the source
side makes it fail. -/
theorem claim_C4_duplicates :
    (∀ source target mapping ignored res,
        perform_comparison source target mapping ignored = .ok res →
        (res.duplicates.passed = true ↔
          dupCount (srcTransformed source mapping ignored).rows =
            dupCount (tgtTransformed target ignored).rows)) ∧
    (∀ src tgt r res res', src.WF → tgt.WF → r ∈ src.rows → r ∈ tgt.rows →
        perform_comparison src tgt [] [] = .ok res →
        res.duplicates.passed = true →
        perform_comparison (appendRow src r) (appendRow tgt r) [] [] = .ok res' →
        res'.duplicates.passed = true) ∧
    (∀ src tgt r res res', src.WF → tgt.WF → r ∈ src.rows →
        perform_comparison src tgt [] [] = .ok res →
        res.duplicates.passed = true →
        perform_comparison (appendRow src r) tgt [] [] = .ok res' →
        res'.duplicates.passed = false) := by
  have hmain : ∀ source target mapping ignored res,
      perform_comparison source target mapping ignored = .ok res →
      (res.duplicates.passed = true ↔
        dupCount (srcTransformed source mapping ignored).rows =
          dupCount (tgtTransformed target ignored).rows) := by
    intro source target mapping ignored res h
    obtain ⟨br, hbr, hres⟩ := perform_comparison_ok h
    subst hres
    simp [dupCheck]
  refine ⟨hmain, ?_, ?_⟩
  · intro src tgt r res res' hsWF htWF hrs hrt h hp h'
    have h1 := (hmain _ _ _ _ _ h).mp hp
    rw [srcTransformed_nil hsWF, tgtTransformed_nil htWF] at h1
    have h2 := hmain _ _ _ _ _ h'
    rw [srcTransformed_nil (appendRow_WF hsWF hrs),
      tgtTransformed_nil (appendRow_WF htWF hrt)] at h2
    rw [h2]
    show dupCount (src.rows ++ [r]) = dupCount (tgt.rows ++ [r])
    rw [dupCount_append, dupCount_append, if_pos hrs, if_pos hrt, h1]
  · intro src tgt r res res' hsWF htWF hrs h hp h'
    have h1 := (hmain _ _ _ _ _ h).mp hp
    rw [srcTransformed_nil hsWF, tgtTransformed_nil htWF] at h1
    have h2 := hmain _ _ _ _ _ h'
    rw [srcTransformed_nil (appendRow_WF hsWF hrs), tgtTransformed_nil htWF] at h2
    rw [← Bool.not_eq_true]
    rw [h2]
    show ¬dupCount (src.rows ++ [r]) = dupCount tgt.rows
    rw [dupCount_append, if_pos hrs, h1]
    omega

/-- Witness for C4 at a concrete input: appending the duplicate row
`[1]` to both sides of a two-row table keeps the duplicate check passing. -/
theorem claim_C4_witness :
    ∃ res', perform_comparison
        (appendRow ⟨[("a", .int64)], [[some (.int 1)], [some (.int 1)]]⟩ [some (.int 1)])
        (appendRow ⟨[("a", .int64)], [[some (.int 1)], [some (.int 1)]]⟩ [some (.int 1)])
        [] [] = .ok res' ∧ res'.duplicates.passed = true := by
  refine ⟨_, rfl, ?_⟩
  exact claim_C4_duplicates.2.1
    ⟨[("a", .int64)], [[some (.int 1)], [some (.int 1)]]⟩
    ⟨[("a", .int64)], [[some (.int 1)], [some (.int 1)]]⟩
    [some (.int 1)] _ _ (by decide) (by decide) (by decide) (by decide)
    rfl rfl rfl

/-!  Claim C3: the null-value check. -/

/-- C3: a returned result's null-value check passes exactly when the two
per-column null-count dictionaries agree at every key; it fails whenever
the two column sets differ, and whenever any single column's counts
differ. -/
theorem claim_C3_null_values :
    ∀ source target mapping ignored res,
      ((srcTransformed source mapping ignored).names).Nodup →
      ((tgtTransformed target ignored).names).Nodup →
      perform_comparison source target mapping ignored = .ok res →
      (res.null_values.passed = true ↔
        ∀ c, (nullCounts (srcTransformed source mapping ignored)).lookup c =
             (nullCounts (tgtTransformed target ignored)).lookup c) ∧
      ((∃ c, ¬(c ∈ (srcTransformed source mapping ignored).names ↔
               c ∈ (tgtTransformed target ignored).names)) →
        res.null_values.passed = false) ∧
      (∀ c v w,
        (nullCounts (srcTransformed source mapping ignored)).lookup c = some v →
        (nullCounts (tgtTransformed target ignored)).lookup c = some w →
        v ≠ w → res.null_values.passed = false) := by
  intro source target mapping ignored res hsN htN h
  obtain ⟨br, hbr, hres⟩ := perform_comparison_ok h
  subst hres
  have hkeysS : ((nullCounts (srcTransformed source mapping ignored)).map Prod.fst).Nodup := by
    rw [nullCounts_keys]
    exact hsN
  have hkeysT : ((nullCounts (tgtTransformed target ignored)).map Prod.fst).Nodup := by
    rw [nullCounts_keys]
    exact htN
  have hiff : (nullCheck (srcTransformed source mapping ignored)
        (tgtTransformed target ignored)).passed = true ↔
      ∀ c, (nullCounts (srcTransformed source mapping ignored)).lookup c =
           (nullCounts (tgtTransformed target ignored)).lookup c := by
    simp only [nullCheck]
    exact dictEqB_iff hkeysS hkeysT
  refine ⟨hiff, ?_, ?_⟩
  · rintro ⟨c, hc⟩
    rw [← Bool.not_eq_true, hiff]
    intro hall
    apply hc
    rw [← nullCounts_keys (srcTransformed source mapping ignored),
      ← nullCounts_keys (tgtTransformed target ignored)]
    rw [← lookup_isSome_iff, ← lookup_isSome_iff, hall c]
  · intro c v w hv hw hne
    rw [← Bool.not_eq_true, hiff]
    intro hall
    rw [hall c, hw] at hv
    exact hne (Option.some.inj hv).symm

/-- Witness for C3 at a concrete input: a passed null-value check yields
agreeing per-column null-count lookups. -/
theorem claim_C3_witness :
    (nullCounts (srcTransformed ⟨[("n", Dtype.object)], [[none]]⟩ [] [])).lookup "n" =
      (nullCounts (tgtTransformed ⟨[("n", Dtype.object)], [[none]]⟩ [])).lookup "n" :=
  ((claim_C3_null_values ⟨[("n", Dtype.object)], [[none]]⟩
      ⟨[("n", Dtype.object)], [[none]]⟩ [] []
      ⟨⟨true, 1, 1, 0⟩, ⟨true, 0, 0⟩, ⟨true, [("n", 1)], [("n", 1)]⟩,
       ⟨false, none⟩, ⟨false, []⟩,
       ⟨true, [⟨"expect_table_row_count_to_be_between", true⟩,
               ⟨"expect_table_columns_to_match_ordered_list", true⟩,
               ⟨"expect_table_row_count_to_be_between", true⟩,
               ⟨"expect_table_columns_to_match_ordered_list", true⟩,
               ⟨"expect_column_values_to_be_of_type", true⟩,
               ⟨"expect_column_values_to_be_of_type", true⟩]⟩⟩
      (by decide) (by decide) rfl).1).mp rfl "n"

/-!  Claim C9: the CSV difference report. -/

/-- Projected rows all have one entry per common column. -/
theorem projRows_length {df : DataFrame} {cols : List String} :
    ∀ q ∈ projRows df cols, q.length = cols.length := by
  intro q hq
  obtain ⟨r, _, rfl⟩ := List.mem_map.mp hq
  unfold projectRow
  exact List.length_map _ _

/-- Appending one element on the right is jointly injective. -/
theorem append_singleton_inj {α : Type} {xs ys : List α} {a b : α}
    (h : xs ++ [a] = ys ++ [b]) : xs = ys ∧ a = b := by
  have h2 := congrArg List.reverse h
  simp only [List.reverse_append, List.reverse_cons, List.reverse_nil,
    List.nil_append, List.singleton_append] at h2
  injection h2 with h3 h4
  refine ⟨?_, h3⟩
  have h5 := congrArg List.reverse h4
  simpa using h5

/-- Counting tagged rows whose projection is a given row counts the
occurrences of that row. -/
theorem filter_take_count {n : Nat} {p : List Cell}
    (l : List (List Cell)) (tag : Cell) (hl : ∀ q ∈ l, q.length = n) :
    ((l.map (fun q => q ++ [tag])).filter
        (fun q => q.take n = p)).length = l.count p := by
  rw [List.filter_map, List.length_map]
  have hcongr : ∀ q ∈ l,
      ((fun q : List Cell => decide (q.take n = p)) ∘ (fun q => q ++ [tag])) q =
        (q == p) := by
    intro q hq
    simp only [Function.comp]
    rw [List.take_left' (hl q hq)]
    exact (Bool.beq_eq_decide_eq q p).symm
  rw [List.filter_congr hcongr, List.count_eq_countP, List.countP_eq_length_filter]

/-- Counting combined rows whose common projection equals a given row
counts that row's occurrences on the two sides. -/
theorem tagged_filter_count {n : Nat} (sp tp : List (List Cell))
    (sTag tTag : Cell) (hsp : ∀ q ∈ sp, q.length = n)
    (htp : ∀ q ∈ tp, q.length = n) (p : List Cell) :
    ((taggedRows sp tp sTag tTag).filter (fun q => q.take n = p)).length =
      (sp ++ tp).count p := by
  unfold taggedRows
  rw [List.filter_append, List.length_append, filter_take_count sp sTag hsp,
    filter_take_count tp tTag htp, List.count_append]

/-- Membership in the combined tagged rows. -/
theorem mem_taggedRows {sp tp : List (List Cell)} {sTag tTag : Cell}
    {r : List Cell} :
    r ∈ taggedRows sp tp sTag tTag ↔
      (∃ q ∈ sp, r = q ++ [sTag]) ∨ (∃ q ∈ tp, r = q ++ [tTag]) := by
  unfold taggedRows
  rw [List.mem_append, List.mem_map, List.mem_map]
  constructor
  · rintro (⟨q, hq, rfl⟩ | ⟨q, hq, rfl⟩)
    · exact .inl ⟨q, hq, rfl⟩
    · exact .inr ⟨q, hq, rfl⟩
  · rintro (⟨q, hq, rfl⟩ | ⟨q, hq, rfl⟩)
    · exact .inl ⟨q, hq, rfl⟩
    · exact .inr ⟨q, hq, rfl⟩

/-- A source-tagged row survives `keep=False` deduplication exactly when it
comes from the source side and its projection occurs exactly once over both
sides. -/
theorem keptRows_mem_source {n : Nat} {sp tp : List (List Cell)}
    {sTag tTag : Cell} (hsp : ∀ q ∈ sp, q.length = n)
    (htp : ∀ q ∈ tp, q.length = n) (hTag : sTag ≠ tTag) (p : List Cell) :
    (p ++ [sTag]) ∈ keptRows sp tp n sTag tTag ↔
      p ∈ sp ∧ (sp ++ tp).count p = 1 := by
  unfold keptRows
  rw [List.mem_filter]
  constructor
  · rintro ⟨htag, hcnt⟩
    have hp : p ∈ sp := by
      rcases mem_taggedRows.mp htag with ⟨q, hq, heq⟩ | ⟨q, hq, heq⟩
      · rw [(append_singleton_inj heq).1]
        exact hq
      · exact absurd (append_singleton_inj heq).2 (fun h => hTag h)
    refine ⟨hp, ?_⟩
    have hlen : p.length = n := hsp p hp
    rw [decide_eq_true_eq, List.take_left' hlen,
      tagged_filter_count sp tp sTag tTag hsp htp p] at hcnt
    exact hcnt
  · rintro ⟨hp, hcnt⟩
    have hlen : p.length = n := hsp p hp
    refine ⟨mem_taggedRows.mpr (.inl ⟨p, hp, rfl⟩), ?_⟩
    rw [decide_eq_true_eq, List.take_left' hlen,
      tagged_filter_count sp tp sTag tTag hsp htp p]
    exact hcnt

/-- The target-side analogue of `keptRows_mem_source`. -/
theorem keptRows_mem_target {n : Nat} {sp tp : List (List Cell)}
    {sTag tTag : Cell} (hsp : ∀ q ∈ sp, q.length = n)
    (htp : ∀ q ∈ tp, q.length = n) (hTag : sTag ≠ tTag) (p : List Cell) :
    (p ++ [tTag]) ∈ keptRows sp tp n sTag tTag ↔
      p ∈ tp ∧ (sp ++ tp).count p = 1 := by
  unfold keptRows
  rw [List.mem_filter]
  constructor
  · rintro ⟨htag, hcnt⟩
    have hp : p ∈ tp := by
      rcases mem_taggedRows.mp htag with ⟨q, hq, heq⟩ | ⟨q, hq, heq⟩
      · exact absurd (append_singleton_inj heq).2 (fun h => hTag h.symm)
      · rw [(append_singleton_inj heq).1]
        exact hq
    refine ⟨hp, ?_⟩
    have hlen : p.length = n := htp p hp
    rw [decide_eq_true_eq, List.take_left' hlen,
      tagged_filter_count sp tp sTag tTag hsp htp p] at hcnt
    exact hcnt
  · rintro ⟨hp, hcnt⟩
    have hlen : p.length = n := htp p hp
    refine ⟨mem_taggedRows.mpr (.inr ⟨p, hp, rfl⟩), ?_⟩
    rw [decide_eq_true_eq, List.take_left' hlen,
      tagged_filter_count sp tp sTag tTag hsp htp p]
    exact hcnt

/-- Appending the same timestamp cell respects membership. -/
theorem mem_map_append_singleton {l : List (List Cell)} {K : List Cell}
    {ts : Cell} :
    (K ++ [ts]) ∈ l.map (fun r => r ++ [ts]) ↔ K ∈ l := by
  rw [List.mem_map]
  constructor
  · rintro ⟨k, hk, heq⟩
    rw [← (append_singleton_inj heq).1]
    exact hk
  · intro h
    exact ⟨K, h, rfl⟩

/-- C9 (amended): the difference report contains exactly the common-column
projections that occur exactly once across the concatenation of the two
sides, each tagged with its origin label and the timestamp; a row present
on only one side but duplicated there is excluded.  Every report row has
this origin/timestamp shape. -/
theorem claim_C9_amended :
    ∀ src tgt now p,
      commonNames src tgt ≠ [] →
      ((p ++ [some (.str "source"), some (.str now)]) ∈
          (generate_data_diff_report src tgt now).rows ↔
        p ∈ projRows src (commonNames src tgt) ∧
          (projRows src (commonNames src tgt) ++
            projRows tgt (commonNames src tgt)).count p = 1) ∧
      ((p ++ [some (.str "target"), some (.str now)]) ∈
          (generate_data_diff_report src tgt now).rows ↔
        p ∈ projRows tgt (commonNames src tgt) ∧
          (projRows src (commonNames src tgt) ++
            projRows tgt (commonNames src tgt)).count p = 1) ∧
      (∀ r ∈ (generate_data_diff_report src tgt now).rows,
        ∃ q tag, (tag = (some (.str "source") : Cell) ∨
            tag = (some (.str "target") : Cell)) ∧
          r = q ++ [tag, some (.str now)] ∧
          (q ∈ projRows src (commonNames src tgt) ∨
            q ∈ projRows tgt (commonNames src tgt))) := by
  intro src tgt now p _
  have hsp : ∀ q ∈ projRows src (commonNames src tgt),
      q.length = (commonNames src tgt).length := projRows_length
  have htp : ∀ q ∈ projRows tgt (commonNames src tgt),
      q.length = (commonNames src tgt).length := projRows_length
  have hTag : (some (.str "source") : Cell) ≠ some (.str "target") := by decide
  have hrows : (generate_data_diff_report src tgt now).rows =
      (keptRows (projRows src (commonNames src tgt))
          (projRows tgt (commonNames src tgt)) (commonNames src tgt).length
          (some (.str "source")) (some (.str "target"))).map
        (fun r => r ++ [some (.str now)]) := rfl
  refine ⟨?_, ?_, ?_⟩
  · rw [hrows]
    have hassoc : p ++ [some (.str "source"), some (.str now)] =
        (p ++ [some (.str "source")]) ++ [some (.str now)] := by
      rw [List.append_assoc]
      rfl
    rw [hassoc, mem_map_append_singleton]
    exact keptRows_mem_source hsp htp hTag p
  · rw [hrows]
    have hassoc : p ++ [some (.str "target"), some (.str now)] =
        (p ++ [some (.str "target")]) ++ [some (.str now)] := by
      rw [List.append_assoc]
      rfl
    rw [hassoc, mem_map_append_singleton]
    exact keptRows_mem_target hsp htp hTag p
  · intro r hr
    rw [hrows] at hr
    obtain ⟨k, hk, rfl⟩ := List.mem_map.mp hr
    have hktag := mem_taggedRows.mp (List.mem_filter.mp hk).1
    rcases hktag with ⟨q, hq, rfl⟩ | ⟨q, hq, rfl⟩
    · refine ⟨q, some (.str "source"), .inl rfl, ?_, .inl hq⟩
      rw [List.append_assoc]
      rfl
    · refine ⟨q, some (.str "target"), .inr rfl, ?_, .inr hq⟩
      rw [List.append_assoc]
      rfl

/-- Counterexample to C9 as stated: the row `[1]` occurs only on the source
side (twice) and on the target side not at all, yet the report is empty —
`keep=False` deduplication drops rows duplicated within one side. -/
theorem claim_C9_counterexample :
    (generate_data_diff_report
        ⟨[("a", .int64)], [[some (.int 1)], [some (.int 1)]]⟩
        ⟨[("a", .int64)], []⟩ "ts").rows = [] ∧
    [some (Val.int 1)] ∈ projRows
        ⟨[("a", .int64)], [[some (.int 1)], [some (.int 1)]]⟩
        (commonNames ⟨[("a", .int64)], [[some (.int 1)], [some (.int 1)]]⟩
          ⟨[("a", .int64)], []⟩) ∧
    [some (Val.int 1)] ∉ projRows ⟨[("a", .int64)], []⟩
        (commonNames ⟨[("a", .int64)], [[some (.int 1)], [some (.int 1)]]⟩
          ⟨[("a", .int64)], []⟩) :=
  ⟨rfl, by decide, by decide⟩

/-- Witness for the amended C9 at a concrete input: a row unique to the
source side appears in the report, tagged and stamped. -/
theorem claim_C9_witness :
    [some (Val.int 1), some (.str "source"), some (.str "ts")] ∈
      (generate_data_diff_report ⟨[("a", Dtype.int64)], [[some (.int 1)]]⟩
        ⟨[("a", Dtype.int64)], []⟩ "ts").rows :=
  ((claim_C9_amended ⟨[("a", .int64)], [[some (.int 1)]]⟩
      ⟨[("a", .int64)], []⟩ "ts" [some (.int 1)] (by decide)).1).mpr
    ⟨by decide, by decide⟩
